import Mathlib

/-!
Verification development for the `stl` Go library (STL triangle-mesh files).

The embedding models, over exact rational arithmetic:

* the geometric data model (`Vec3`, `Triangle`, `Solid`) from `solid.go`
  (the `Triangle`/`Vec3` helper file is not part of the sources given, so
  those helpers are modelled from the specification);
* `Solid.SetTriangleCount` together with a model of Go slice capacity;
* `Ray.IntersectsTriangle` from `ray.go` (Möller–Trumbore);
* `Solid.Validate` and the edge-adjacency lookup from `solid.go`;
* the ASCII grammar parser from `readascii.go`, as a scanner state plus
  diagnostic-emitting step functions.

Go `float64` values are modelled as exact rationals.  Machine floats are
not represented bit-exactly; the decimal-literal acceptance test of the
parser (`strconv.ParseFloat(w, 32)`, standard library, not part of the
sources) is modelled from the specification as an exact decimal parse
followed by a `float32` range check.
-/

/-- One component triple, modelling Go `type Vec3 [3]float64` with exact
rationals in place of `float64`. -/
structure Vec3 where
  x : ℚ
  y : ℚ
  z : ℚ
deriving DecidableEq, Repr

/-- Modelled from the spec: the zero vector `Vec3Zero`. -/
def Vec3Zero : Vec3 := ⟨0, 0, 0⟩

/-- Modelled from the spec: componentwise difference `a.Diff(b) = a - b`
(`vec3.go` is not among the given sources; the spec's Möller–Trumbore
description fixes the meaning: `edge1 = v1 − v0`). -/
def Vec3.diff (a b : Vec3) : Vec3 := ⟨a.x - b.x, a.y - b.y, a.z - b.z⟩

/-- Modelled from the spec: componentwise sum `a.Add(b)`. -/
def Vec3.add (a b : Vec3) : Vec3 := ⟨a.x + b.x, a.y + b.y, a.z + b.z⟩

/-- Modelled from the spec: scalar multiple `a.MultScalar(k)`. -/
def Vec3.multScalar (a : Vec3) (k : ℚ) : Vec3 := ⟨k * a.x, k * a.y, k * a.z⟩

/-- Modelled from the spec: dot product `a.Dot(b)`. -/
def Vec3.dot (a b : Vec3) : ℚ := a.x * b.x + a.y * b.y + a.z * b.z

/-- Modelled from the spec: cross product `a.Cross(b)`. -/
def Vec3.cross (a b : Vec3) : Vec3 :=
  ⟨a.y * b.z - a.z * b.y, a.z * b.x - a.x * b.z, a.x * b.y - a.y * b.x⟩

/-- Modelled from the spec: a triangle is 3 ordered vertices plus one
stored normal vector (`triangle.go` is not among the given sources).
`v0`,`v1`,`v2` are `Vertices[0..2]`. -/
structure Triangle where
  normal : Vec3
  v0 : Vec3
  v1 : Vec3
  v2 : Vec3
deriving DecidableEq, Repr

/-- Vertex accessor: `t.Vertices[i]` for `i = 0,1,2` (total on `Nat`,
out-of-range indices never occur at call sites). -/
def Triangle.vert (t : Triangle) : Nat → Vec3
  | 0 => t.v0
  | 1 => t.v1
  | _ + 2 => t.v2

/-- Modelled from the spec: `hasEqualVertices` flags a triangle in which
some two vertices are exactly equal (a line or a point). -/
def Triangle.hasEqualVertices (t : Triangle) : Bool :=
  decide (t.v0 = t.v1 ∨ t.v1 = t.v2 ∨ t.v0 = t.v2)

/-- Modelled from the spec: the right-hand-rule normal recomputed from the
vertices, `(v1 − v0) × (v2 − v0)`. -/
def Triangle.normalFromVertices (t : Triangle) : Vec3 :=
  (t.v1.diff t.v0).cross (t.v2.diff t.v0)

/-- Modelled from the spec: `checkNormal` with the fixed 90° tolerance
(`normalAngleTolerance = HalfPi` in `solid.go`): the stored normal passes
iff its angle to the recomputed right-hand-rule normal does not exceed
90°, i.e. iff the dot product is nonnegative. -/
def Triangle.checkNormal (t : Triangle) : Bool :=
  decide (0 ≤ t.normalFromVertices.dot t.normal)

/-- Model of `Solid` from `solid.go`.  `trianglesCap` models the Go slice
capacity `cap(s.Triangles)`; `triangles` models its contents
`s.Triangles[0:len]`. -/
structure Solid where
  binaryHeader : List Nat
  name : String
  triangles : List Triangle
  trianglesCap : Nat
  isAscii : Bool
deriving DecidableEq, Repr

/-- `Solid.SetName` from `solid.go`. -/
def Solid.setName (s : Solid) (n : String) : Solid := { s with name := n }

/-- `Solid.AppendTriangle` from `solid.go`: `append(s.Triangles, t)`.
Go's `append` grows the capacity by a runtime-chosen amount when the slice
is full; the model keeps only the guarantee `cap ≥ len`. -/
def Solid.appendTriangle (s : Solid) (t : Triangle) : Solid :=
  { s with triangles := s.triangles ++ [t],
           trianglesCap := max s.trianglesCap (s.triangles.length + 1) }

/-- `Solid.SetTriangleCount` from `solid.go`.  The Go code converts the
length and capacity to `uint32` before comparing; the conversions are kept
as `% 2^32`.  Branches, in source order: `n < l` reslices to `[:n]`
(capacity unchanged), `n <= c` does nothing, otherwise a fresh slice of
length `l` and capacity `n` is allocated and the old contents copied. -/
def Solid.setTriangleCount (s : Solid) (n : Nat) : Solid :=
  let n := n % 2 ^ 32
  let l := s.triangles.length % 2 ^ 32
  let c := s.trianglesCap % 2 ^ 32
  if n < l then
    { s with triangles := s.triangles.take n }
  else if n ≤ c then s
  else
    { s with triangles := s.triangles.take l, trianglesCap := n }

/-- `epsilon` from `ray.go`: `math.Nextafter(1, 2) - 1 = 2^-52`. -/
def epsilon : ℚ := 1 / 2 ^ 52

/-- `Ray` from `ray.go`: origin point and direction vector. -/
structure Ray where
  origin : Vec3
  direction : Vec3
deriving DecidableEq, Repr

/-- `Ray.IntersectsTriangle` from `ray.go` (Möller–Trumbore), translated
step for step; the Go function returns `(Vec3, bool)`. -/
def Ray.IntersectsTriangle (ray : Ray) (triangle : Triangle) : Vec3 × Bool :=
  let edge1 := triangle.v1.diff triangle.v0
  let edge2 := triangle.v2.diff triangle.v0
  let rayCrossE2 := ray.direction.cross edge2
  let det := edge1.dot rayCrossE2
  if -epsilon < det ∧ det < epsilon then
    -- ray is parallel to triangle
    (Vec3Zero, false)
  else
    let invDet := 1 / det
    let s := ray.origin.diff triangle.v0
    let u := invDet * s.dot rayCrossE2
    if u < 0 ∨ 1 < u then
      (Vec3Zero, false)
    else
      let sCrossE1 := s.cross edge1
      let v := invDet * ray.direction.dot sCrossE1
      if v < 0 ∨ 1 < u + v then
        (Vec3Zero, false)
      else
        let t := invDet * edge2.dot sCrossE1
        if epsilon < t then
          (ray.origin.add (ray.direction.multScalar t), true)
        else
          (Vec3Zero, false)

/-- The determinant `det = edge1 · (direction × edge2)` as computed by
`Ray.IntersectsTriangle`. -/
def mtDet (ray : Ray) (triangle : Triangle) : ℚ :=
  (triangle.v1.diff triangle.v0).dot
    (ray.direction.cross (triangle.v2.diff triangle.v0))

/-- The barycentric coordinate `u` as computed by `Ray.IntersectsTriangle`
(after the determinant test). -/
def mtU (ray : Ray) (triangle : Triangle) : ℚ :=
  (1 / mtDet ray triangle) *
    (ray.origin.diff triangle.v0).dot
      (ray.direction.cross (triangle.v2.diff triangle.v0))

/-- The barycentric coordinate `v` as computed by `Ray.IntersectsTriangle`. -/
def mtV (ray : Ray) (triangle : Triangle) : ℚ :=
  (1 / mtDet ray triangle) *
    ray.direction.dot
      ((ray.origin.diff triangle.v0).cross (triangle.v1.diff triangle.v0))

/-- The ray parameter `t` as computed by `Ray.IntersectsTriangle`. -/
def mtT (ray : Ray) (triangle : Triangle) : ℚ :=
  (1 / mtDet ray triangle) *
    (triangle.v2.diff triangle.v0).dot
      ((ray.origin.diff triangle.v0).cross (triangle.v1.diff triangle.v0))

/-- The triangle `(0,0,0),(1,0,0),(0,1,0)` used by the spec's intersection
examples (stored normal left at the zero value, as in `ray_test.go`). -/
def exampleTriangle : Triangle :=
  { normal := Vec3Zero, v0 := ⟨0, 0, 0⟩, v1 := ⟨1, 0, 0⟩, v2 := ⟨0, 1, 0⟩ }

/-- `EdgeError` from `solid.go`: per-edge findings of `Solid.Validate`. -/
structure EdgeError where
  sameEdgeTriangles : List Nat
  counterEdgeTriangles : List Nat
deriving DecidableEq, Repr

/-- `TriangleErrors` from `solid.go`.  `EdgeErrors[e]` is `nil` (`none`)
when edge `e` (joining vertex `e` to vertex `(e+1)%3`) has no finding. -/
structure TriangleErrors where
  hasEqualVertices : Bool
  normalDoesNotMatch : Bool
  edge0 : Option EdgeError
  edge1 : Option EdgeError
  edge2 : Option EdgeError
deriving DecidableEq, Repr

/-- The all-clear `TriangleErrors` value, as allocated by
`triangleErrorsMap.item` on first use (`new(TriangleErrors)`). -/
def emptyTriangleErrors : TriangleErrors :=
  { hasEqualVertices := false, normalDoesNotMatch := false,
    edge0 := none, edge1 := none, edge2 := none }

/-- `te.EdgeErrors[e]` as a total accessor on `Nat` indices. -/
def TriangleErrors.edgeIdx (te : TriangleErrors) : Nat → Option EdgeError
  | 0 => te.edge0
  | 1 => te.edge1
  | _ + 2 => te.edge2

/-- Store an `EdgeError` at edge index `e` (indices are always `0..2`). -/
def TriangleErrors.setEdge (te : TriangleErrors) (e : Nat) (ee : EdgeError) :
    TriangleErrors :=
  match e with
  | 0 => { te with edge0 := some ee }
  | 1 => { te with edge1 := some ee }
  | _ + 2 => { te with edge2 := some ee }

/-- Does triangle `t` contain the directed edge `v → w` (as one of its
three winding-order edges)?  This is membership of `t`'s index in the
`edgeLookup` set for the key `[2]Vec3{v, w}` of `solid.go`. -/
def hasDirectedEdge (t : Triangle) (v w : Vec3) : Bool :=
  decide ((t.v0 = v ∧ t.v1 = w) ∨ (t.v1 = v ∧ t.v2 = w) ∨ (t.v2 = v ∧ t.v0 = w))

/-- `edgeLookup.OtherTrianglesWithEdge(v, w, i)` from `solid.go`: the
indices of triangles containing the directed edge `v → w`, excluding `i`.
The Go code materialises a hash map from edges to index sets and iterates
the set in nondeterministic order; only membership and size are observable
through `Validate`, and the model fixes ascending index order. -/
def otherTrianglesWithEdge (tris : List Triangle) (v w : Vec3) (i : Nat) :
    List Nat :=
  (List.range tris.length).filter fun j =>
    decide (j ≠ i) && (tris.getD j exampleTriangle |> fun t => hasDirectedEdge t v w)

/-- One pass of the per-edge checks of `Solid.Validate` for edge `e` of
triangle `i`: record other triangles sharing the same directed edge (any
hit is an error), then the reverse-edge occurrences when their number is
not exactly one.  `acc` is the entry of `triangleErrorsMap` for `i`
(`none` while `item(i)` has not been called). -/
def processEdge (tris : List Triangle) (i : Nat) (t : Triangle) (e : Nat)
    (acc : Option TriangleErrors) : Option TriangleErrors :=
  let v := t.vert e
  let w := t.vert ((e + 1) % 3)
  let sameEdgeTriangles := otherTrianglesWithEdge tris v w i
  let acc :=
    if sameEdgeTriangles ≠ [] then
      let te := acc.getD emptyTriangleErrors
      some (te.setEdge e
        { (te.edgeIdx e).getD ⟨[], []⟩ with sameEdgeTriangles := sameEdgeTriangles })
    else acc
  let counterEdgeTriangles := otherTrianglesWithEdge tris w v i
  if counterEdgeTriangles.length ≠ 1 then
    let te := acc.getD emptyTriangleErrors
    some (te.setEdge e
      { (te.edgeIdx e).getD ⟨[], []⟩ with counterEdgeTriangles := counterEdgeTriangles })
  else acc

/-- The per-triangle body of `Solid.Validate`'s second loop: equal-vertex
check, normal check, then the three edges in order.  Returns `none` when
`triangleErrorsMap.item(i)` was never called, i.e. the triangle is fully
healthy and omitted from the findings map. -/
def processTriangle (tris : List Triangle) (i : Nat) (t : Triangle) :
    Option TriangleErrors :=
  let acc : Option TriangleErrors :=
    if t.hasEqualVertices then
      some { emptyTriangleErrors with hasEqualVertices := true }
    else none
  let acc :=
    if ¬ t.checkNormal then
      some { acc.getD emptyTriangleErrors with normalDoesNotMatch := true }
    else acc
  processEdge tris i t 2 (processEdge tris i t 1 (processEdge tris i t 0 acc))

/-- `Solid.Validate` from `solid.go`.  The Go function returns
`map[int]*TriangleErrors`; the model returns the map as an association
list keyed by triangle index in ascending order (Go map iteration order is
nondeterministic; the map's key → value relation is what the list
represents). -/
def Solid.Validate (s : Solid) : List (Nat × TriangleErrors) :=
  s.triangles.enum.filterMap fun p =>
    (processTriangle s.triangles p.1 p.2).map fun te => (p.1, te)

/-- Findings lookup: the entry of the `Validate` map for triangle `i`. -/
def Solid.findingsAt (s : Solid) (i : Nat) : Option TriangleErrors :=
  s.Validate.lookup i

/-! ### The ASCII parser (`readascii.go`)

The parser input is modelled as the list of lines delivered by Go's
`bufio.ScanLines` (line contents without the terminating newline, a
trailing `\r` before the newline already stripped, as `ScanLines` does).
The model is pure: the byte-stream read errors that `nextWord`/`nextLine`
can report in Go cannot occur on a fully given input.

Diagnostics are written by the Go code into a shared append-only list that
nothing reads before `generateErrorText`; the model therefore lets every
step function return the diagnostics it appends, and concatenates them in
execution order. -/

/-- Is `c` one of the ASCII white-space characters recognised by
`bufio.ScanWords` (space, tab, newline, vertical tab, form feed, carriage
return)? -/
def isSpaceChar (c : Char) : Bool :=
  c = ' ' || c = '\t' || c = '\n' || c = '\x0b' || c = '\x0c' || c = '\r'

/-- Split accumulator: `cur` is the word being read (reversed). -/
def splitWordsAux : List Char → List Char → List String
  | [], cur => if cur.isEmpty then [] else [String.mk cur.reverse]
  | c :: cs, cur =>
    if isSpaceChar c then
      if cur.isEmpty then splitWordsAux cs []
      else String.mk cur.reverse :: splitWordsAux cs []
    else splitWordsAux cs (c :: cur)

/-- The words of one line, as produced by a `bufio.Scanner` with
`bufio.ScanWords` over the line's bytes. -/
def splitWords (s : String) : List String := splitWordsAux s.data []

/-- `bytes.HasPrefix` on the model's strings (the patterns used are
ASCII, so byte and character positions agree). -/
def strStartsWith (s p : String) : Bool := p.data.isPrefixOf s.data

/-- Modelled from the spec: `extractASCIIString` (defined in a source
file not given here) — the header-line remainder trimmed of a trailing
carriage return. -/
def extractASCIIString (s : String) : String :=
  match s.data.getLast? with
  | some c => if c = '\r' then String.mk s.data.dropLast else s
  | none => s

/-- The scanner cursor of `parser` from `readascii.go`: current line
number (1-based), current word, raw current line, the words of the
current line not yet consumed, the lines not yet read, and the
end-of-stream flag. -/
structure ScanState where
  line : Nat
  currentWord : String
  currentLine : String
  restWords : List String
  restLines : List String
  eof : Bool
deriving DecidableEq, Repr

/-- A diagnostic in the format of `parser.addError`:
`"<lineNumber>: <message>"`. -/
def diag (line : Nat) (msg : String) : String := toString line ++ ": " ++ msg

/-- Scan forward to the first line that contains a word.  Returns the
number of lines consumed and, on success, that line together with its
first word, the remaining words and the remaining lines.  This is the
recursion `nextLine → nextWord → nextLine` of `readascii.go`, which
transparently skips lines without words. -/
def findLine : List String → Nat × Option (String × String × List String × List String)
  | [] => (0, none)
  | l :: ls =>
    match splitWords l with
    | [] => let (k, r) := findLine ls; (k + 1, r)
    | w :: ws => (1, some (l, w, ws, ls))

/-- `parser.nextLine` (with the embedded `nextWord` call): advance to the
first upcoming line that has a word; at end of input set `eof` and clear
the cursor. -/
def nextLine (st : ScanState) : Bool × ScanState :=
  match findLine st.restLines with
  | (k, none) =>
    (false, { st with line := st.line + k, currentLine := "", currentWord := "",
                      restWords := [], restLines := [], eof := true })
  | (k, some (l, w, ws, rest)) =>
    (true, { st with line := st.line + k, currentLine := l, currentWord := w,
                     restWords := ws, restLines := rest })

/-- `parser.nextWord`: the next word of the current line, else the first
word of the next word-bearing line, else end of stream. -/
def nextWord (st : ScanState) : Bool × ScanState :=
  if st.eof then (false, st)
  else
    match st.restWords with
    | w :: ws => (true, { st with currentWord := w, restWords := ws })
    | [] => nextLine st

/-- `newParser`: a fresh cursor on the given lines, positioned by one
`nextLine` call. -/
def initParser (lines : List String) : ScanState :=
  (nextLine { line := 0, currentWord := "", currentLine := "", restWords := [],
              restLines := lines, eof := false }).2

/-- The words the scanner has not yet presented as `currentWord`. -/
def streamRest (st : ScanState) : List String :=
  st.restWords ++ (st.restLines.map splitWords).flatten

/-- Number of words remaining beyond the current one; every successful
`nextWord` decreases it by exactly one. -/
def totalWords (st : ScanState) : Nat := (streamRest st).length

/-- The token vocabulary of `readascii.go` (`idSolid` … `idEndsolid`)
plus the recovery set `idFacet|idEndsolid`. -/
inductive Ident where
  | solid | facet | normal | outer | loop | vertex
  | endloop | endfacet | endsolid | facetOrEndsolid
deriving DecidableEq, Repr

/-- `identRegexps`: all patterns are anchored exact matches, and the
combined pattern matches either keyword. -/
def identMatches : Ident → String → Bool
  | .solid, w => w = "solid"
  | .facet, w => w = "facet"
  | .normal, w => w = "normal"
  | .outer, w => w = "outer"
  | .loop, w => w = "loop"
  | .vertex, w => w = "vertex"
  | .endloop, w => w = "endloop"
  | .endfacet, w => w = "endfacet"
  | .endsolid, w => w = "endsolid"
  | .facetOrEndsolid, w => w = "facet" || w = "endsolid"

/-- `idents`: the keyword text used in `"X" expected` diagnostics.  The
Go map has no entry for the combined id, so lookup yields `""` there
(`consumeToken` is never called with it). -/
def identText : Ident → String
  | .solid => "solid"
  | .facet => "facet"
  | .normal => "normal"
  | .outer => "outer"
  | .loop => "loop"
  | .vertex => "vertex"
  | .endloop => "endloop"
  | .endfacet => "endfacet"
  | .endsolid => "endsolid"
  | .facetOrEndsolid => ""

/-- `parser.consumeToken`: match the current word against the keyword; on
a match advance one word, otherwise record one `"X" expected`
diagnostic. -/
def consumeToken (i : Ident) (st : ScanState) : Bool × ScanState × List String :=
  if identMatches i st.currentWord then (true, (nextWord st).2, [])
  else (false, st, [diag st.line ("\"" ++ identText i ++ "\" expected")])

/-- Collect a maximal run of decimal digits. -/
def takeDigits : List Char → List Char × List Char
  | [] => ([], [])
  | c :: cs =>
    if c.isDigit then
      let (d, r) := takeDigits cs
      (c :: d, r)
    else ([], c :: cs)

/-- Numeric value of a digit run. -/
def digitsVal (ds : List Char) : Nat :=
  ds.foldl (fun a c => a * 10 + (c.toNat - 48)) 0

/-- Modelled from the spec: the exact rational value of a decimal
floating-point literal — optional sign, decimal mantissa with optional
fraction (at least one digit overall), optional decimal exponent.
Returns `none` on a syntax error.  (`strconv.ParseFloat` is standard
library code, not part of the given sources; hexadecimal floats,
`Inf`/`NaN` spellings and digit-group underscores are outside the spec's
"decimal literal" grammar and are not modelled.) -/
def parseDecimalLit (s : String) : Option ℚ :=
  let (neg, cs1) :=
    match s.data with
    | '-' :: r => (true, r)
    | '+' :: r => (false, r)
    | r => (false, r)
  let (ip, cs2) := takeDigits cs1
  let (fp, cs3) :=
    match cs2 with
    | '.' :: r => takeDigits r
    | r => ([], r)
  if ip.isEmpty && fp.isEmpty then none
  else
    let mant : ℚ := (digitsVal ip : ℚ) + (digitsVal fp : ℚ) / 10 ^ fp.length
    let signed : ℚ := if neg then -mant else mant
    match cs3 with
    | [] => some signed
    | e :: r =>
      if e = 'e' || e = 'E' then
        let (esign, r1) :=
          match r with
          | '-' :: q => (true, q)
          | '+' :: q => (false, q)
          | q => (false, q)
        let (ed, r2) := takeDigits r1
        if ed.isEmpty || !r2.isEmpty then none
        else
          let ex : ℤ := if esign then -(digitsVal ed : ℤ) else (digitsVal ed : ℤ)
          some (signed * (10 : ℚ) ^ ex)
      else none

/-- The smallest magnitude that `strconv.ParseFloat(s, 32)` reports as an
out-of-range error: values of at least `maxFloat32 + ulp/2 = 2^128 −
2^103` round to infinity at 32-bit precision. -/
def float32OverflowBound : ℚ := 2 ^ 128 - 2 ^ 103

/-- Largest finite `float64` magnitude, `(2^53 − 1)·2^971`. -/
def maxFloat64R : ℚ := (2 ^ 53 - 1) * 2 ^ 971

/-- Modelled from the spec: acceptance and exact value of
`strconv.ParseFloat(w, 32)` — the reduced, 32-bit precision parse.  A
well-formed decimal literal is rejected exactly when its magnitude is out
of `float32` range.  The value is kept as the exact rational of the
literal (the claims under verification depend on acceptance, not on the
rounded bits). -/
def goParseFloat32 (w : String) : Option ℚ :=
  match parseDecimalLit w with
  | none => none
  | some q => if |q| < float32OverflowBound then some q else none

/-- `parser.parseFloat64`: at end of stream fail silently (no diagnostic,
the Go code returns `false` before any `addError`); otherwise parse the
current word at 32-bit precision, storing the value in a `float64` slot
(every `float32` is exactly representable as `float64`, so the model
keeps the exact value). -/
def parseFloat64 (st : ScanState) : Option ℚ × ScanState × List String :=
  if st.eof then (none, st, [])
  else
    match goParseFloat32 st.currentWord with
    | none => (none, st, [diag st.line "Unable to parse float"])
    | some v => (some v, (nextWord st).2, [])

/-- `parser.parsePoint`: three floats into the three components. -/
def parsePoint (st : ScanState) : Option Vec3 × ScanState × List String :=
  match parseFloat64 st with
  | (none, st1, ds1) => (none, st1, ds1)
  | (some a, st1, ds1) =>
    match parseFloat64 st1 with
    | (none, st2, ds2) => (none, st2, ds1 ++ ds2)
    | (some b, st2, ds2) =>
      match parseFloat64 st2 with
      | (none, st3, ds3) => (none, st3, ds1 ++ ds2 ++ ds3)
      | (some c, st3, ds3) => (some ⟨a, b, c⟩, st3, ds1 ++ ds2 ++ ds3)

/-- `parser.parseFacet`: the short-circuit conjunction
`facet → normal → point → outer → loop → (vertex point)×3 → endloop →
endfacet`; the first failing step aborts with the state and diagnostics
accumulated so far, a full success yields the triangle. -/
def parseFacet (st : ScanState) : Option Triangle × ScanState × List String :=
  match consumeToken .facet st with
  | (false, st1, ds1) => (none, st1, ds1)
  | (true, st1, ds1) =>
    match consumeToken .normal st1 with
    | (false, st2, ds2) => (none, st2, ds1 ++ ds2)
    | (true, st2, ds2) =>
      match parsePoint st2 with
      | (none, st3, ds3) => (none, st3, ds1 ++ ds2 ++ ds3)
      | (some n, st3, ds3) =>
        match consumeToken .outer st3 with
        | (false, st4, ds4) => (none, st4, ds1 ++ ds2 ++ ds3 ++ ds4)
        | (true, st4, ds4) =>
          match consumeToken .loop st4 with
          | (false, st5, ds5) => (none, st5, ds1 ++ ds2 ++ ds3 ++ ds4 ++ ds5)
          | (true, st5, ds5) =>
            match consumeToken .vertex st5 with
            | (false, st6, ds6) => (none, st6, ds1 ++ ds2 ++ ds3 ++ ds4 ++ ds5 ++ ds6)
            | (true, st6, ds6) =>
              match parsePoint st6 with
              | (none, st7, ds7) =>
                (none, st7, ds1 ++ ds2 ++ ds3 ++ ds4 ++ ds5 ++ ds6 ++ ds7)
              | (some a, st7, ds7) =>
                match consumeToken .vertex st7 with
                | (false, st8, ds8) =>
                  (none, st8, ds1 ++ ds2 ++ ds3 ++ ds4 ++ ds5 ++ ds6 ++ ds7 ++ ds8)
                | (true, st8, ds8) =>
                  match parsePoint st8 with
                  | (none, st9, ds9) =>
                    (none, st9,
                      ds1 ++ ds2 ++ ds3 ++ ds4 ++ ds5 ++ ds6 ++ ds7 ++ ds8 ++ ds9)
                  | (some b, st9, ds9) =>
                    match consumeToken .vertex st9 with
                    | (false, st10, ds10) =>
                      (none, st10,
                        ds1 ++ ds2 ++ ds3 ++ ds4 ++ ds5 ++ ds6 ++ ds7 ++ ds8 ++ ds9 ++
                          ds10)
                    | (true, st10, ds10) =>
                      match parsePoint st10 with
                      | (none, st11, ds11) =>
                        (none, st11,
                          ds1 ++ ds2 ++ ds3 ++ ds4 ++ ds5 ++ ds6 ++ ds7 ++ ds8 ++ ds9 ++
                            ds10 ++ ds11)
                      | (some c, st11, ds11) =>
                        match consumeToken .endloop st11 with
                        | (false, st12, ds12) =>
                          (none, st12,
                            ds1 ++ ds2 ++ ds3 ++ ds4 ++ ds5 ++ ds6 ++ ds7 ++ ds8 ++
                              ds9 ++ ds10 ++ ds11 ++ ds12)
                        | (true, st12, ds12) =>
                          match consumeToken .endfacet st12 with
                          | (false, st13, ds13) =>
                            (none, st13,
                              ds1 ++ ds2 ++ ds3 ++ ds4 ++ ds5 ++ ds6 ++ ds7 ++ ds8 ++
                                ds9 ++ ds10 ++ ds11 ++ ds12 ++ ds13)
                          | (true, st13, ds13) =>
                            (some { normal := n, v0 := a, v1 := b, v2 := c }, st13,
                              ds1 ++ ds2 ++ ds3 ++ ds4 ++ ds5 ++ ds6 ++ ds7 ++ ds8 ++
                                ds9 ++ ds10 ++ ds11 ++ ds12 ++ ds13)

/-- `parser.skipToToken` with explicit fuel (each loop step consumes one
word, so `totalWords st + 1` steps always suffice): discard words until
the current word matches, reporting which member of a recovery set
matched, or `none` at end of stream (`idNone`). -/
def skipToTokenF : Nat → Ident → ScanState → Option Ident × ScanState
  | 0, _, st => (none, st)
  | f + 1, i, st =>
    if identMatches i st.currentWord then
      if i = .facetOrEndsolid then
        if identMatches .facet st.currentWord then (some .facet, st)
        else (some .endsolid, st)
      else (some i, st)
    else
      match nextWord st with
      | (false, st1) => (none, st1)
      | (true, st1) => skipToTokenF f i st1

/-- `parser.skipToToken` at its always-sufficient fuel. -/
def skipToToken (i : Ident) (st : ScanState) : Option Ident × ScanState :=
  skipToTokenF (totalWords st + 1) i st

/-- The `TriangleLoop` of `parser.Parse`, with explicit fuel (one unit
per iteration; every continuing iteration consumes at least one word or
reaches end of stream, so `totalWords st + 2` iterations always suffice).
Returns the triangles handed to the Writer in order, the
`TrianglesSkipped` flag, the exit state, and the diagnostics. -/
def triangleLoopF : Nat → ScanState → List Triangle × Bool × ScanState × List String
  | 0, st => ([], false, st, [])
  | f + 1, st =>
    if st.eof then ([], false, st, [])
    else if identMatches .endsolid st.currentWord then ([], false, st, [])
    else
      -- `if !p.isCurrentTokenIdent(idFacet) { addError; skipToToken; … }`
      match
        (if identMatches .facet st.currentWord then
          (some Ident.facet, st, ([] : List String))
        else
          let d := diag st.line "\"facet\" or \"endsolid\" expected"
          let (r, st1) := skipToToken .facetOrEndsolid st
          (r, st1, [d])) with
      | (some .facet, st1, pre) =>
        match parseFacet st1 with
        | (some t, st2, ds) =>
          let (ts, sk, st3, tail) := triangleLoopF f st2
          (t :: ts, sk, st3, pre ++ ds ++ tail)
        | (none, st2, ds) =>
          -- `p.TrianglesSkipped = true; p.skipToToken(idFacet | idEndsolid)`
          let (_, st3) := skipToToken .facetOrEndsolid st2
          let (ts, _, st4, tail) := triangleLoopF f st3
          (ts, true, st4, pre ++ ds ++ tail)
      | (_, st1, pre) =>
        -- `case idEndsolid, idNone: break TriangleLoop`
        ([], false, st1, pre)

/-- `parser.parseASCIIHeaderLine`: on a line starting with `"solid "` the
remainder is the solid's name (handed to the Writer via `SetName`);
otherwise one header diagnostic.  Always advances to the next line. -/
def parseASCIIHeaderLine (st : ScanState) :
    Bool × Option String × ScanState × List String :=
  if st.eof then
    (false, none, (nextLine st).2, [diag st.line "unexpected end of file"])
  else if strStartsWith st.currentLine "solid " then
    (true, some (extractASCIIString ⟨st.currentLine.data.drop 6⟩),
      (nextLine st).2, [])
  else
    (false, none, (nextLine st).2,
      [diag st.line "ASCII header must start with \"solid \""])

/-- Everything `parser.Parse` does before the `success :=` line, with the
Writer interactions reified: `headerError` and `skipped` are the
`p.HeaderError` / `p.TrianglesSkipped` flags at loop exit, `nameSet` the
argument of the `SetName` call (if any), `emitted` the triangles passed
to `AppendTriangle` in order, `state` the scanner cursor at loop exit and
`diags` the accumulated diagnostics. -/
structure MainResult where
  headerError : Bool
  skipped : Bool
  nameSet : Option String
  emitted : List Triangle
  state : ScanState
  diags : List String
deriving DecidableEq, Repr

/-- The header phase plus triangle loop of `parser.Parse`. -/
def parseMain (lines : List String) : MainResult :=
  let st0 := initParser lines
  if st0.eof then
    { headerError := true, skipped := false, nameSet := none, emitted := [],
      state := st0, diags := [diag st0.line "File is empty"] }
  else
    let (hok, name, st1, hds) := parseASCIIHeaderLine st0
    let (ts, sk, st2, lds) := triangleLoopF (totalWords st1 + 2) st1
    { headerError := !hok, skipped := sk, nameSet := name, emitted := ts,
      state := st2, diags := hds ++ lds }

/-- The observable outcome of `parser.Parse(sw)` on a Writer `sw` (the
library's Writer is `*Solid`): the returned success flag, the
`p.ErrorText` built by `generateErrorText`, the Writer after the
`SetName`/`AppendTriangle` calls, the final parser flags, the final
cursor and the raw diagnostics list. -/
structure ParseResult where
  success : Bool
  errorText : String
  writer : Solid
  headerError : Bool
  trianglesSkipped : Bool
  finalState : ScanState
  diags : List String
deriving DecidableEq, Repr

/-- `parser.Parse` from `readascii.go`.  The Go success expression
`!p.HeaderError && !p.TrianglesSkipped && p.consumeToken(idEndsolid)`
short-circuits: the final `consumeToken` (and its possible diagnostic)
only happens when the first two conjuncts hold. -/
def Parse (lines : List String) (sw : Solid) : ParseResult :=
  let m := parseMain lines
  let (success, stF, ds2) :=
    if m.headerError || m.skipped then (false, m.state, ([] : List String))
    else consumeToken .endsolid m.state
  let allDiags := m.diags ++ ds2
  let errorText :=
    (if m.skipped then "Triangles had to be skipped.\n" else "") ++
      String.join (allDiags.map fun d => d ++ "\n")
  let sw1 := match m.nameSet with
    | some n => sw.setName n
    | none => sw
  let sw2 := m.emitted.foldl Solid.appendTriangle sw1
  { success := success, errorText := errorText, writer := sw2,
    headerError := m.headerError, trianglesSkipped := m.skipped,
    finalState := stF, diags := allDiags }

/-! ### Conformance to the STL ASCII grammar

`facetToks t ws` says that the word list `ws` spells one grammar-correct
`facet … endfacet` block whose twelve float literals parse (at 32-bit
precision) to the components of `t`; `FacetStream ts ws` concatenates
such blocks.  A byte stream conforms to the grammar exactly when its
first line is `"solid " ++ name` and the words of the remaining lines
form `ws ++ ["endsolid"]` for some `FacetStream ts ws`. -/

/-- One grammar-correct facet block for the triangle `t`. -/
def facetToks (t : Triangle) (ws : List String) : Prop :=
  ∃ na nb nc a1 a2 a3 b1 b2 b3 c1 c2 c3 : String,
    ws = ["facet", "normal", na, nb, nc, "outer", "loop",
          "vertex", a1, a2, a3, "vertex", b1, b2, b3, "vertex", c1, c2, c3,
          "endloop", "endfacet"] ∧
    goParseFloat32 na = some t.normal.x ∧
    goParseFloat32 nb = some t.normal.y ∧
    goParseFloat32 nc = some t.normal.z ∧
    goParseFloat32 a1 = some t.v0.x ∧
    goParseFloat32 a2 = some t.v0.y ∧
    goParseFloat32 a3 = some t.v0.z ∧
    goParseFloat32 b1 = some t.v1.x ∧
    goParseFloat32 b2 = some t.v1.y ∧
    goParseFloat32 b3 = some t.v1.z ∧
    goParseFloat32 c1 = some t.v2.x ∧
    goParseFloat32 c2 = some t.v2.y ∧
    goParseFloat32 c3 = some t.v2.z

/-- A grammar-correct sequence of facet blocks for the triangles `ts`. -/
inductive FacetStream : List Triangle → List String → Prop where
  | nil : FacetStream [] []
  | cons {t : Triangle} {ts : List Triangle} {ws rest : List String} :
      facetToks t ws → FacetStream ts rest → FacetStream (t :: ts) (ws ++ rest)

/-- The exact messages a failing `parseFacet` sub-step can record: a
missing keyword (`consumeToken`) or an unparsable float literal. -/
def facetStepMsgs : List String :=
  ["\"facet\" expected", "\"normal\" expected", "\"outer\" expected",
   "\"loop\" expected", "\"vertex\" expected", "\"endloop\" expected",
   "\"endfacet\" expected", "Unable to parse float"]

/-- Witness fixture: a scanner state standing on a `facet` block whose
third word is not a float literal. -/
def c5FailState : ScanState :=
  { line := 1, currentWord := "facet", currentLine := "",
    restWords := ["normal", "xx"], restLines := [], eof := false }

/-- Witness fixture: the body lines of a conforming one-triangle file. -/
def c1Body : List String :=
  ["facet normal 0 0 1", "outer loop", "vertex 0 0 0", "vertex 1 0 0",
   "vertex 0 1 0", "endloop", "endfacet", "endsolid"]

/-- Witness fixture: the triangle encoded by `c1Body`. -/
def c1Tri : Triangle :=
  { normal := ⟨0, 0, 1⟩, v0 := ⟨0, 0, 0⟩, v1 := ⟨1, 0, 0⟩, v2 := ⟨0, 1, 0⟩ }

/-- Witness fixture: the token block of `c1Body`'s single facet. -/
def c1Block : List String :=
  ["facet", "normal", "0", "0", "1", "outer", "loop",
   "vertex", "0", "0", "0", "vertex", "1", "0", "0", "vertex", "0", "1", "0",
   "endloop", "endfacet"]

/-- Witness fixture: a scanner state whose current word is a decimal
literal in `float64` range but out of `float32` range. -/
def c8State : ScanState :=
  { line := 3, currentWord := "1e39", currentLine := "vertex 1e39 0 0",
    restWords := ["0", "0"], restLines := [], eof := false }

/-- An empty Writer, as a collaborator would hand to `readAllASCII`. -/
def emptyWriter : Solid :=
  { binaryHeader := [], name := "", triangles := [], trianglesCap := 0,
    isAscii := true }

/-- Witness fixture: a regular tetrahedron-like closed manifold solid
with outward right-hand-rule normals. -/
def tetraSolid : Solid :=
  { binaryHeader := [], name := "tetra", trianglesCap := 4, isAscii := true,
    triangles :=
      [ { normal := ⟨0, 0, -1⟩, v0 := ⟨0, 0, 0⟩, v1 := ⟨0, 1, 0⟩, v2 := ⟨1, 0, 0⟩ },
        { normal := ⟨0, -1, 0⟩, v0 := ⟨0, 0, 0⟩, v1 := ⟨1, 0, 0⟩, v2 := ⟨0, 0, 1⟩ },
        { normal := ⟨1, 1, 1⟩, v0 := ⟨1, 0, 0⟩, v1 := ⟨0, 1, 0⟩, v2 := ⟨0, 0, 1⟩ },
        { normal := ⟨-1, 0, 0⟩, v0 := ⟨0, 1, 0⟩, v1 := ⟨0, 0, 0⟩, v2 := ⟨0, 0, 1⟩ } ] }

/-- Witness fixture: two triangles sharing the directed edge
`(0,0,0) → (1,0,0)` in the same direction. -/
def sameEdgePair : Solid :=
  { binaryHeader := [], name := "", trianglesCap := 2, isAscii := true,
    triangles :=
      [ { normal := Vec3Zero, v0 := ⟨0, 0, 0⟩, v1 := ⟨1, 0, 0⟩, v2 := ⟨0, 1, 0⟩ },
        { normal := Vec3Zero, v0 := ⟨0, 0, 0⟩, v1 := ⟨1, 0, 0⟩, v2 := ⟨0, 0, 1⟩ } ] }

/-- Cursor abstraction: the scanner is about to present exactly the words
`ws` — its current word is their head and `streamRest` their tail, or it
is at end of stream when `ws` is empty. -/
def Cursor (st : ScanState) : List String → Prop
  | [] => st.eof = true
  | w :: rest => st.eof = false ∧ st.currentWord = w ∧ streamRest st = rest

/-- Classification of the diagnostics a failing `parseFacet` leaves
behind, together with its exit state: either exactly one line-numbered
diagnostic naming the failing expectation, or none at all with the
scanner at end of stream (the `parseFloat64` end-of-stream path). -/
def FacetFailDiags (stq : ScanState) (ds : List String) : Prop :=
  (∃ n msg, msg ∈ facetStepMsgs ∧ ds = [diag n msg]) ∨
    (stq.eof = true ∧ ds = [])

/-- Edge entry of an optional findings record (`nil` maps have no
entries). -/
def edgeAt (o : Option TriangleErrors) (e : Nat) : Option EdgeError :=
  match o with
  | none => none
  | some te => te.edgeIdx e

/-! ## Theorems -/

/-- `setEdge` stores at the requested index. -/
theorem edgeIdx_setEdge_self (te : TriangleErrors) (ee : EdgeError) (e : Nat)
    (he : e < 3) : (te.setEdge e ee).edgeIdx e = some ee := by
  interval_cases e <;> rfl

/-- `setEdge` leaves the other edge indices alone. -/
theorem edgeIdx_setEdge_other (te : TriangleErrors) (ee : EdgeError) (e f : Nat)
    (he : e < 3) (hf : f < 3) (hef : e ≠ f) :
    (te.setEdge e ee).edgeIdx f = te.edgeIdx f := by
  interval_cases e <;> interval_cases f <;> first | rfl | exact absurd rfl hef

/-- Membership in `OtherTrianglesWithEdge`: exactly the in-range indices
other than `i` whose triangle contains the directed edge `v → w`. -/
theorem mem_otherTrianglesWithEdge (tris : List Triangle) (v w : Vec3)
    (i j : Nat) :
    j ∈ otherTrianglesWithEdge tris v w i ↔
      j < tris.length ∧ j ≠ i ∧
        hasDirectedEdge (tris.getD j exampleTriangle) v w = true := by
  simp [otherTrianglesWithEdge, List.mem_filter, List.mem_range, and_assoc]

/-- `OtherTrianglesWithEdge` is nonempty iff some other triangle contains
the directed edge. -/
theorem otherTrianglesWithEdge_ne_nil (tris : List Triangle) (v w : Vec3)
    (i : Nat) :
    otherTrianglesWithEdge tris v w i ≠ [] ↔
      ∃ j, j < tris.length ∧ j ≠ i ∧
        hasDirectedEdge (tris.getD j exampleTriangle) v w = true := by
  constructor
  · intro h
    rcases List.exists_mem_of_ne_nil _ h with ⟨j, hj⟩
    exact ⟨j, (mem_otherTrianglesWithEdge tris v w i j).mp hj⟩
  · rintro ⟨j, hj⟩
    exact List.ne_nil_of_mem ((mem_otherTrianglesWithEdge tris v w i j).mpr hj)

/-- A findings record whose edges are all unset has no edge entry. -/
theorem edgeIdx_mk_none (b₁ b₂ : Bool) (f : Nat) :
    (TriangleErrors.mk b₁ b₂ none none none).edgeIdx f = none := by
  match f with
  | 0 => rfl
  | 1 => rfl
  | _ + 2 => rfl

/-- `Option.getD emptyTriangleErrors` exposes the edges of an optional
record. -/
theorem edgeIdx_getD (acc : Option TriangleErrors) (f : Nat) :
    (acc.getD emptyTriangleErrors).edgeIdx f = edgeAt acc f := by
  cases acc with
  | none => exact edgeIdx_mk_none false false f
  | some te => rfl

/-- `processEdge` for edge `e` does not touch the record of edge `f ≠ e`. -/
theorem edgeAt_processEdge_other (tris : List Triangle) (i : Nat) (t : Triangle)
    (e f : Nat) (acc : Option TriangleErrors) (he : e < 3) (hf : f < 3)
    (hef : e ≠ f) :
    edgeAt (processEdge tris i t e acc) f = edgeAt acc f := by
  simp only [processEdge]
  split_ifs <;>
    simp only [edgeAt, Option.getD_some, edgeIdx_setEdge_other _ _ e f he hf hef,
      edgeIdx_getD]

/-- The content `processEdge` leaves at its own edge, provided that edge
had no record yet (as is the case in `processTriangle`'s edge loop): a
same-direction hit list when nonempty, and the reverse-direction list
when its length differs from one. -/
theorem edgeAt_processEdge_self (tris : List Triangle) (i : Nat) (t : Triangle)
    (e : Nat) (acc : Option TriangleErrors) (he : e < 3)
    (h0 : edgeAt acc e = none) :
    edgeAt (processEdge tris i t e acc) e =
      (if otherTrianglesWithEdge tris (t.vert e) (t.vert ((e + 1) % 3)) i = [] then
        if (otherTrianglesWithEdge tris (t.vert ((e + 1) % 3)) (t.vert e) i).length = 1
        then none
        else some ⟨[], otherTrianglesWithEdge tris (t.vert ((e + 1) % 3)) (t.vert e) i⟩
      else
        if (otherTrianglesWithEdge tris (t.vert ((e + 1) % 3)) (t.vert e) i).length = 1
        then some ⟨otherTrianglesWithEdge tris (t.vert e) (t.vert ((e + 1) % 3)) i, []⟩
        else some ⟨otherTrianglesWithEdge tris (t.vert e) (t.vert ((e + 1) % 3)) i,
          otherTrianglesWithEdge tris (t.vert ((e + 1) % 3)) (t.vert e) i⟩) := by
  simp only [processEdge]
  split_ifs with h1 h2 <;>
    simp_all only [edgeAt, Option.getD_some, Option.getD_none,
      edgeIdx_setEdge_self _ _ e he, edgeIdx_getD, ne_eq, not_not,
      not_true_eq_false, not_false_eq_true]

/-- A healthy edge (no same-direction hit, exactly one reverse hit)
leaves the accumulator untouched. -/
theorem processEdge_skip (tris : List Triangle) (i : Nat) (t : Triangle)
    (e : Nat) (acc : Option TriangleErrors)
    (hS : otherTrianglesWithEdge tris (t.vert e) (t.vert ((e + 1) % 3)) i = [])
    (hC : (otherTrianglesWithEdge tris (t.vert ((e + 1) % 3)) (t.vert e) i).length = 1) :
    processEdge tris i t e acc = acc := by
  simp [processEdge, hS, hC]

/-- The edge records produced by the three-edge loop of
`processTriangle`, starting from any accumulator with unset edges. -/
theorem edgeAt_processEdges (tris : List Triangle) (i : Nat) (t : Triangle)
    (acc : Option TriangleErrors) (h0 : ∀ f, edgeAt acc f = none) (e : Nat)
    (he : e < 3) :
    edgeAt (processEdge tris i t 2 (processEdge tris i t 1
        (processEdge tris i t 0 acc))) e =
      (if otherTrianglesWithEdge tris (t.vert e) (t.vert ((e + 1) % 3)) i = [] then
        if (otherTrianglesWithEdge tris (t.vert ((e + 1) % 3)) (t.vert e) i).length = 1
        then none
        else some ⟨[], otherTrianglesWithEdge tris (t.vert ((e + 1) % 3)) (t.vert e) i⟩
      else
        if (otherTrianglesWithEdge tris (t.vert ((e + 1) % 3)) (t.vert e) i).length = 1
        then some ⟨otherTrianglesWithEdge tris (t.vert e) (t.vert ((e + 1) % 3)) i, []⟩
        else some ⟨otherTrianglesWithEdge tris (t.vert e) (t.vert ((e + 1) % 3)) i,
          otherTrianglesWithEdge tris (t.vert ((e + 1) % 3)) (t.vert e) i⟩) := by
  interval_cases e
  · rw [edgeAt_processEdge_other tris i t 2 0 _ (by omega) (by omega) (by omega),
      edgeAt_processEdge_other tris i t 1 0 _ (by omega) (by omega) (by omega),
      edgeAt_processEdge_self tris i t 0 _ (by omega) (h0 0)]
  · rw [edgeAt_processEdge_other tris i t 2 1 _ (by omega) (by omega) (by omega),
      edgeAt_processEdge_self tris i t 1 _ (by omega) ?h1]
    case h1 =>
      rw [edgeAt_processEdge_other tris i t 0 1 _ (by omega) (by omega) (by omega)]
      exact h0 1
  · rw [edgeAt_processEdge_self tris i t 2 _ (by omega) ?h2]
    case h2 =>
      rw [edgeAt_processEdge_other tris i t 1 2 _ (by omega) (by omega) (by omega),
        edgeAt_processEdge_other tris i t 0 2 _ (by omega) (by omega) (by omega)]
      exact h0 2

/-- The flag-setting prefix of `processTriangle` leaves all edges unset. -/
theorem edgeAt_flagAcc (t : Triangle) (f : Nat) :
    edgeAt
      (if ¬ t.checkNormal then
        some { (if t.hasEqualVertices then
            some { emptyTriangleErrors with hasEqualVertices := true }
          else none).getD emptyTriangleErrors with normalDoesNotMatch := true }
      else
        (if t.hasEqualVertices then
          some { emptyTriangleErrors with hasEqualVertices := true }
        else none)) f = none := by
  split_ifs <;>
    simp only [edgeAt, Option.getD_some, Option.getD_none, emptyTriangleErrors] <;>
    exact edgeIdx_mk_none _ _ f

/-- The edge records of a full `processTriangle` run: edge `e` carries a
record exactly as dictated by the same-direction and reverse-direction
adjacency queries. -/
theorem edgeAt_processTriangle (tris : List Triangle) (i : Nat) (t : Triangle)
    (e : Nat) (he : e < 3) :
    edgeAt (processTriangle tris i t) e =
      (if otherTrianglesWithEdge tris (t.vert e) (t.vert ((e + 1) % 3)) i = [] then
        if (otherTrianglesWithEdge tris (t.vert ((e + 1) % 3)) (t.vert e) i).length = 1
        then none
        else some ⟨[], otherTrianglesWithEdge tris (t.vert ((e + 1) % 3)) (t.vert e) i⟩
      else
        if (otherTrianglesWithEdge tris (t.vert ((e + 1) % 3)) (t.vert e) i).length = 1
        then some ⟨otherTrianglesWithEdge tris (t.vert e) (t.vert ((e + 1) % 3)) i, []⟩
        else some ⟨otherTrianglesWithEdge tris (t.vert e) (t.vert ((e + 1) % 3)) i,
          otherTrianglesWithEdge tris (t.vert ((e + 1) % 3)) (t.vert e) i⟩) := by
  have := edgeAt_processEdges tris i t
    (if ¬ t.checkNormal then
      some { (if t.hasEqualVertices then
          some { emptyTriangleErrors with hasEqualVertices := true }
        else none).getD emptyTriangleErrors with normalDoesNotMatch := true }
    else
      (if t.hasEqualVertices then
        some { emptyTriangleErrors with hasEqualVertices := true }
      else none))
    (edgeAt_flagAcc t) e he
  simpa only [processTriangle] using this

/-- Looking up index `i` in a findings list built over `enumFrom k`
yields exactly the per-index result when `i` addresses one of the
enumerated triangles, and nothing otherwise (keys are distinct and
ascending). -/
theorem lookup_findings_enumFrom (g : Nat → Triangle → Option TriangleErrors) :
    ∀ (l : List Triangle) (k i : Nat),
      ((l.enumFrom k).filterMap fun p => (g p.1 p.2).map fun te => (p.1, te)).lookup i =
        if k ≤ i ∧ i < k + l.length then g i (l.getD (i - k) exampleTriangle)
        else none := by
  intro l
  induction l with
  | nil =>
    intro k i
    simp only [List.enumFrom, List.filterMap_nil, List.lookup_nil, List.length_nil]
    rw [if_neg (by omega)]
  | cons t l ih =>
    intro k i
    have henum : (t :: l).enumFrom k = (k, t) :: l.enumFrom (k + 1) := rfl
    rw [henum]
    cases hg : g k t with
    | none =>
      rw [List.filterMap_cons_none (by simp [hg]), ih (k + 1) i]
      by_cases hik : i = k
      · subst hik
        rw [if_neg (by omega), if_pos (by simp only [List.length_cons]; omega)]
        simpa using hg.symm
      · by_cases hrange : k ≤ i ∧ i < k + (t :: l).length
        · have h1 : k + 1 ≤ i ∧ i < k + 1 + l.length := by
            simp only [List.length_cons] at hrange; omega
          rw [if_pos h1, if_pos hrange]
          have hsub : i - k = (i - (k + 1)) + 1 := by omega
          rw [hsub]
          rfl
        · have h1 : ¬(k + 1 ≤ i ∧ i < k + 1 + l.length) := by
            simp only [List.length_cons] at hrange; omega
          rw [if_neg h1, if_neg hrange]
    | some te =>
      have hstep :
          List.filterMap (fun p => Option.map (fun te => (p.1, te)) (g p.1 p.2))
              ((k, t) :: List.enumFrom (k + 1) l) =
            (k, te) ::
              List.filterMap (fun p => Option.map (fun te => (p.1, te)) (g p.1 p.2))
                (List.enumFrom (k + 1) l) :=
        List.filterMap_cons_some (by simp [hg])
      rw [hstep]
      by_cases hik : i = k
      · subst hik
        rw [List.lookup_cons_self, if_pos (by simp only [List.length_cons]; omega)]
        simpa using hg.symm
      · have hbeq : (i == k) = false := by simpa using hik
        rw [List.lookup_cons]
        simp only [hbeq]
        rw [ih (k + 1) i]
        by_cases hrange : k ≤ i ∧ i < k + (t :: l).length
        · have h1 : k + 1 ≤ i ∧ i < k + 1 + l.length := by
            simp only [List.length_cons] at hrange; omega
          rw [if_pos h1, if_pos hrange]
          have hsub : i - k = (i - (k + 1)) + 1 := by omega
          rw [hsub]
          rfl
        · have h1 : ¬(k + 1 ≤ i ∧ i < k + 1 + l.length) := by
            simp only [List.length_cons] at hrange; omega
          rw [if_neg h1, if_neg hrange]

/-- The findings map entry for triangle `i`: the per-triangle findings
when `i` is in range, nothing otherwise. -/
theorem findingsAt_eq (s : Solid) (i : Nat) :
    s.findingsAt i =
      if i < s.triangles.length then
        processTriangle s.triangles i (s.triangles.getD i exampleTriangle)
      else none := by
  have h := lookup_findings_enumFrom (fun n t => processTriangle s.triangles n t)
    s.triangles 0 i
  simp only [Nat.zero_add, Nat.zero_le, true_and, Nat.sub_zero] at h
  unfold Solid.findingsAt Solid.Validate
  rw [List.enum]
  exact h

/-- An edge record forces the whole findings record to exist. -/
theorem edgeAt_some_exists (P : Option TriangleErrors) (e : Nat) (ee : EdgeError)
    (h : edgeAt P e = some ee) : ∃ te, P = some te ∧ te.edgeIdx e = some ee := by
  cases P with
  | none => exact absurd h (by simp [edgeAt])
  | some te => exact ⟨te, rfl, h⟩

/-- A triangle contains the directed edge `v → w` iff one of its three
winding edges is that ordered pair. -/
theorem hasDirectedEdge_iff (t : Triangle) (v w : Vec3) :
    hasDirectedEdge t v w = true ↔
      ∃ e, e < 3 ∧ t.vert e = v ∧ t.vert ((e + 1) % 3) = w := by
  unfold hasDirectedEdge
  rw [decide_eq_true_iff]
  constructor
  · rintro (⟨h1, h2⟩ | ⟨h1, h2⟩ | ⟨h1, h2⟩)
    · exact ⟨0, by omega, h1, h2⟩
    · exact ⟨1, by omega, h1, h2⟩
    · exact ⟨2, by omega, h1, h2⟩
  · rintro ⟨e, he, h1, h2⟩
    interval_cases e
    · exact Or.inl ⟨h1, h2⟩
    · exact Or.inr (Or.inl ⟨h1, h2⟩)
    · exact Or.inr (Or.inr ⟨h1, h2⟩)

/-- C2: for every triangle `i` and edge `e`, `Validate` records a
non-empty same-edge list exactly when some other triangle contains the
same directed edge; any listed partner lists `i` back on its matching
edge; and a counter-edge list is recorded exactly when the number of
other triangles with the reversed edge differs from one (the stored list
being that query's result), the exactly-one case storing nothing. -/
theorem c2_validate_edges (s : Solid) (i e : Nat)
    (hi : i < s.triangles.length) (he : e < 3) :
    ((∃ te ee, s.findingsAt i = some te ∧ te.edgeIdx e = some ee ∧
        ee.sameEdgeTriangles ≠ []) ↔
      ∃ j, j < s.triangles.length ∧ j ≠ i ∧
        hasDirectedEdge (s.triangles.getD j exampleTriangle)
          ((s.triangles.getD i exampleTriangle).vert e)
          ((s.triangles.getD i exampleTriangle).vert ((e + 1) % 3)) = true) ∧
    (∀ te ee j, s.findingsAt i = some te → te.edgeIdx e = some ee →
      j ∈ ee.sameEdgeTriangles →
      ∃ e', e' < 3 ∧
        (s.triangles.getD j exampleTriangle).vert e' =
          (s.triangles.getD i exampleTriangle).vert e ∧
        (s.triangles.getD j exampleTriangle).vert ((e' + 1) % 3) =
          (s.triangles.getD i exampleTriangle).vert ((e + 1) % 3) ∧
        ∃ te' ee', s.findingsAt j = some te' ∧ te'.edgeIdx e' = some ee' ∧
          i ∈ ee'.sameEdgeTriangles) ∧
    ((otherTrianglesWithEdge s.triangles
        ((s.triangles.getD i exampleTriangle).vert ((e + 1) % 3))
        ((s.triangles.getD i exampleTriangle).vert e) i).length ≠ 1 →
      ∃ te ee, s.findingsAt i = some te ∧ te.edgeIdx e = some ee ∧
        ee.counterEdgeTriangles =
          otherTrianglesWithEdge s.triangles
            ((s.triangles.getD i exampleTriangle).vert ((e + 1) % 3))
            ((s.triangles.getD i exampleTriangle).vert e) i) ∧
    ((otherTrianglesWithEdge s.triangles
        ((s.triangles.getD i exampleTriangle).vert ((e + 1) % 3))
        ((s.triangles.getD i exampleTriangle).vert e) i).length = 1 →
      ∀ te ee, s.findingsAt i = some te → te.edgeIdx e = some ee →
        ee.counterEdgeTriangles = []) := by
  have hfind : s.findingsAt i =
      processTriangle s.triangles i (s.triangles.getD i exampleTriangle) := by
    rw [findingsAt_eq, if_pos hi]
  have hedge := edgeAt_processTriangle s.triangles i
    (s.triangles.getD i exampleTriangle) e he
  refine ⟨?_, ?_, ?_, ?_⟩
  · constructor
    · rintro ⟨te, ee, h1, h2, h3⟩
      rw [← otherTrianglesWithEdge_ne_nil]
      intro hS
      rw [if_pos hS] at hedge
      have hee : edgeAt
          (processTriangle s.triangles i (s.triangles.getD i exampleTriangle)) e =
          some ee := by
        rw [hfind] at h1
        rw [h1]
        exact h2
      rw [hedge] at hee
      by_cases hC : (otherTrianglesWithEdge s.triangles
          ((s.triangles.getD i exampleTriangle).vert ((e + 1) % 3))
          ((s.triangles.getD i exampleTriangle).vert e) i).length = 1
      · rw [if_pos hC] at hee
        exact Option.noConfusion hee
      · rw [if_neg hC] at hee
        simp only [Option.some.injEq] at hee
        rw [← hee] at h3
        exact h3 rfl
    · intro hex
      have hS := (otherTrianglesWithEdge_ne_nil s.triangles
        ((s.triangles.getD i exampleTriangle).vert e)
        ((s.triangles.getD i exampleTriangle).vert ((e + 1) % 3)) i).mpr hex
      rw [if_neg hS] at hedge
      by_cases hC : (otherTrianglesWithEdge s.triangles
          ((s.triangles.getD i exampleTriangle).vert ((e + 1) % 3))
          ((s.triangles.getD i exampleTriangle).vert e) i).length = 1
      · rw [if_pos hC] at hedge
        obtain ⟨te, hP, hIdx⟩ := edgeAt_some_exists _ e _ hedge
        exact ⟨te, _, by rw [hfind, hP], hIdx, hS⟩
      · rw [if_neg hC] at hedge
        obtain ⟨te, hP, hIdx⟩ := edgeAt_some_exists _ e _ hedge
        exact ⟨te, _, by rw [hfind, hP], hIdx, hS⟩
  · intro te ee j h1 h2 hj
    have hee : edgeAt
        (processTriangle s.triangles i (s.triangles.getD i exampleTriangle)) e =
        some ee := by
      rw [hfind] at h1
      rw [h1]
      exact h2
    rw [hedge] at hee
    have hjS : j ∈ otherTrianglesWithEdge s.triangles
        ((s.triangles.getD i exampleTriangle).vert e)
        ((s.triangles.getD i exampleTriangle).vert ((e + 1) % 3)) i := by
      by_cases hS : otherTrianglesWithEdge s.triangles
          ((s.triangles.getD i exampleTriangle).vert e)
          ((s.triangles.getD i exampleTriangle).vert ((e + 1) % 3)) i = []
      · rw [if_pos hS] at hee
        by_cases hC : (otherTrianglesWithEdge s.triangles
            ((s.triangles.getD i exampleTriangle).vert ((e + 1) % 3))
            ((s.triangles.getD i exampleTriangle).vert e) i).length = 1
        · rw [if_pos hC] at hee
          exact Option.noConfusion hee
        · rw [if_neg hC] at hee
          simp only [Option.some.injEq] at hee
          rw [← hee] at hj
          exact absurd hj (by simp)
      · rw [if_neg hS] at hee
        by_cases hC : (otherTrianglesWithEdge s.triangles
            ((s.triangles.getD i exampleTriangle).vert ((e + 1) % 3))
            ((s.triangles.getD i exampleTriangle).vert e) i).length = 1
        · rw [if_pos hC] at hee
          simp only [Option.some.injEq] at hee
          rw [← hee] at hj
          exact hj
        · rw [if_neg hC] at hee
          simp only [Option.some.injEq] at hee
          rw [← hee] at hj
          exact hj
    obtain ⟨hjlen, hjne, hjedge⟩ :=
      (mem_otherTrianglesWithEdge s.triangles _ _ i j).mp hjS
    obtain ⟨e', he', hv, hw⟩ := (hasDirectedEdge_iff _ _ _).mp hjedge
    refine ⟨e', he', hv, hw, ?_⟩
    have hiSj : i ∈ otherTrianglesWithEdge s.triangles
        ((s.triangles.getD j exampleTriangle).vert e')
        ((s.triangles.getD j exampleTriangle).vert ((e' + 1) % 3)) j := by
      rw [hv, hw]
      refine (mem_otherTrianglesWithEdge s.triangles _ _ j i).mpr
        ⟨hi, fun hij => hjne (hij.symm), ?_⟩
      exact (hasDirectedEdge_iff _ _ _).mpr ⟨e, he, rfl, rfl⟩
    have hSj : otherTrianglesWithEdge s.triangles
        ((s.triangles.getD j exampleTriangle).vert e')
        ((s.triangles.getD j exampleTriangle).vert ((e' + 1) % 3)) j ≠ [] :=
      List.ne_nil_of_mem hiSj
    have hedgej := edgeAt_processTriangle s.triangles j
      (s.triangles.getD j exampleTriangle) e' he'
    rw [if_neg hSj] at hedgej
    have hfindj : s.findingsAt j =
        processTriangle s.triangles j (s.triangles.getD j exampleTriangle) := by
      rw [findingsAt_eq, if_pos hjlen]
    by_cases hCj : (otherTrianglesWithEdge s.triangles
        ((s.triangles.getD j exampleTriangle).vert ((e' + 1) % 3))
        ((s.triangles.getD j exampleTriangle).vert e') j).length = 1
    · rw [if_pos hCj] at hedgej
      obtain ⟨te', hP, hIdx⟩ := edgeAt_some_exists _ e' _ hedgej
      exact ⟨te', _, by rw [hfindj, hP], hIdx, hiSj⟩
    · rw [if_neg hCj] at hedgej
      obtain ⟨te', hP, hIdx⟩ := edgeAt_some_exists _ e' _ hedgej
      exact ⟨te', _, by rw [hfindj, hP], hIdx, hiSj⟩
  · intro hC
    by_cases hS : otherTrianglesWithEdge s.triangles
        ((s.triangles.getD i exampleTriangle).vert e)
        ((s.triangles.getD i exampleTriangle).vert ((e + 1) % 3)) i = []
    · rw [if_pos hS, if_neg hC] at hedge
      obtain ⟨te, hP, hIdx⟩ := edgeAt_some_exists _ e _ hedge
      exact ⟨te, _, by rw [hfind, hP], hIdx, rfl⟩
    · rw [if_neg hS, if_neg hC] at hedge
      obtain ⟨te, hP, hIdx⟩ := edgeAt_some_exists _ e _ hedge
      exact ⟨te, _, by rw [hfind, hP], hIdx, rfl⟩
  · intro hC te ee h1 h2
    have hee : edgeAt
        (processTriangle s.triangles i (s.triangles.getD i exampleTriangle)) e =
        some ee := by
      rw [hfind] at h1
      rw [h1]
      exact h2
    rw [hedge] at hee
    by_cases hS : otherTrianglesWithEdge s.triangles
        ((s.triangles.getD i exampleTriangle).vert e)
        ((s.triangles.getD i exampleTriangle).vert ((e + 1) % 3)) i = []
    · rw [if_pos hS, if_pos hC] at hee
      exact Option.noConfusion hee
    · rw [if_neg hS, if_pos hC] at hee
      simp only [Option.some.injEq] at hee
      rw [← hee]

/-- Witness for C2 at `sameEdgePair` (two triangles with the same
directed edge `(0,0,0) → (1,0,0)`), triangle `0`, edge `0`. -/
theorem c2_validate_edges_witness :
    ((∃ te ee, sameEdgePair.findingsAt 0 = some te ∧ te.edgeIdx 0 = some ee ∧
        ee.sameEdgeTriangles ≠ []) ↔
      ∃ j, j < sameEdgePair.triangles.length ∧ j ≠ 0 ∧
        hasDirectedEdge (sameEdgePair.triangles.getD j exampleTriangle)
          ((sameEdgePair.triangles.getD 0 exampleTriangle).vert 0)
          ((sameEdgePair.triangles.getD 0 exampleTriangle).vert ((0 + 1) % 3)) =
            true) ∧
    (∀ te ee j, sameEdgePair.findingsAt 0 = some te → te.edgeIdx 0 = some ee →
      j ∈ ee.sameEdgeTriangles →
      ∃ e', e' < 3 ∧
        (sameEdgePair.triangles.getD j exampleTriangle).vert e' =
          (sameEdgePair.triangles.getD 0 exampleTriangle).vert 0 ∧
        (sameEdgePair.triangles.getD j exampleTriangle).vert ((e' + 1) % 3) =
          (sameEdgePair.triangles.getD 0 exampleTriangle).vert ((0 + 1) % 3) ∧
        ∃ te' ee', sameEdgePair.findingsAt j = some te' ∧
          te'.edgeIdx e' = some ee' ∧ 0 ∈ ee'.sameEdgeTriangles) ∧
    ((otherTrianglesWithEdge sameEdgePair.triangles
        ((sameEdgePair.triangles.getD 0 exampleTriangle).vert ((0 + 1) % 3))
        ((sameEdgePair.triangles.getD 0 exampleTriangle).vert 0) 0).length ≠ 1 →
      ∃ te ee, sameEdgePair.findingsAt 0 = some te ∧ te.edgeIdx 0 = some ee ∧
        ee.counterEdgeTriangles =
          otherTrianglesWithEdge sameEdgePair.triangles
            ((sameEdgePair.triangles.getD 0 exampleTriangle).vert ((0 + 1) % 3))
            ((sameEdgePair.triangles.getD 0 exampleTriangle).vert 0) 0) ∧
    ((otherTrianglesWithEdge sameEdgePair.triangles
        ((sameEdgePair.triangles.getD 0 exampleTriangle).vert ((0 + 1) % 3))
        ((sameEdgePair.triangles.getD 0 exampleTriangle).vert 0) 0).length = 1 →
      ∀ te ee, sameEdgePair.findingsAt 0 = some te → te.edgeIdx 0 = some ee →
        ee.counterEdgeTriangles = []) :=
  c2_validate_edges sameEdgePair 0 0 (by norm_num [sameEdgePair]) (by omega)

/-- C10: after `SetTriangleCount(n)` the triangle list is truncated to
`min (previous length) n` with the initial segment intact, the capacity
is at least `n`, and the remaining `Solid` fields are untouched.  The
hypotheses are the Go slice invariant `len ≤ cap` and the absence of
`uint32` truncation (lengths below `2^32`). -/
theorem c10_setTriangleCount (s : Solid) (n : Nat)
    (hlc : s.triangles.length ≤ s.trianglesCap)
    (hl : s.triangles.length < 2 ^ 32) (hc : s.trianglesCap < 2 ^ 32)
    (hn : n < 2 ^ 32) :
    (s.setTriangleCount n).triangles =
      s.triangles.take (min s.triangles.length n) ∧
    n ≤ (s.setTriangleCount n).trianglesCap ∧
    (s.setTriangleCount n).name = s.name ∧
    (s.setTriangleCount n).binaryHeader = s.binaryHeader ∧
    (s.setTriangleCount n).isAscii = s.isAscii := by
  simp only [Solid.setTriangleCount, Nat.mod_eq_of_lt hn, Nat.mod_eq_of_lt hl,
    Nat.mod_eq_of_lt hc]
  split_ifs with h1 h2
  · have hmin : min s.triangles.length n = n := by omega
    exact ⟨by rw [hmin], show n ≤ s.trianglesCap by omega, rfl, rfl, rfl⟩
  · have hmin : min s.triangles.length n = s.triangles.length := by omega
    exact ⟨by rw [hmin, List.take_length], show n ≤ s.trianglesCap by omega,
      rfl, rfl, rfl⟩
  · have hmin : min s.triangles.length n = s.triangles.length := by omega
    exact ⟨by rw [hmin], show n ≤ n by omega, rfl, rfl, rfl⟩

/-- Witness for C10 at a concrete solid (`tetraSolid`, `n = 1`). -/
theorem c10_setTriangleCount_witness :
    (tetraSolid.setTriangleCount 1).triangles =
      tetraSolid.triangles.take (min tetraSolid.triangles.length 1) ∧
    1 ≤ (tetraSolid.setTriangleCount 1).trianglesCap ∧
    (tetraSolid.setTriangleCount 1).name = tetraSolid.name ∧
    (tetraSolid.setTriangleCount 1).binaryHeader = tetraSolid.binaryHeader ∧
    (tetraSolid.setTriangleCount 1).isAscii = tetraSolid.isAscii :=
  c10_setTriangleCount tetraSolid 1 (by decide) (by decide) (by decide) (by decide)

/-- C3: `Ray.IntersectsTriangle` follows the Möller–Trumbore test — it
misses when `|det| < epsilon`, when `u` is outside `[0,1]`, when `v < 0`
or `u + v > 1`, or when `t ≤ epsilon`, and otherwise hits at
`origin + t·direction`; moreover the spec's three concrete examples hold,
the last one for every ray origin. -/
theorem c3_intersectsTriangle :
    (∀ (r : Ray) (tri : Triangle),
      ((-epsilon < mtDet r tri ∧ mtDet r tri < epsilon) →
        r.IntersectsTriangle tri = (Vec3Zero, false)) ∧
      (¬(-epsilon < mtDet r tri ∧ mtDet r tri < epsilon) →
        (mtU r tri < 0 ∨ 1 < mtU r tri) →
        r.IntersectsTriangle tri = (Vec3Zero, false)) ∧
      (¬(-epsilon < mtDet r tri ∧ mtDet r tri < epsilon) →
        ¬(mtU r tri < 0 ∨ 1 < mtU r tri) →
        (mtV r tri < 0 ∨ 1 < mtU r tri + mtV r tri) →
        r.IntersectsTriangle tri = (Vec3Zero, false)) ∧
      (¬(-epsilon < mtDet r tri ∧ mtDet r tri < epsilon) →
        ¬(mtU r tri < 0 ∨ 1 < mtU r tri) →
        ¬(mtV r tri < 0 ∨ 1 < mtU r tri + mtV r tri) →
        mtT r tri ≤ epsilon →
        r.IntersectsTriangle tri = (Vec3Zero, false)) ∧
      (¬(-epsilon < mtDet r tri ∧ mtDet r tri < epsilon) →
        ¬(mtU r tri < 0 ∨ 1 < mtU r tri) →
        ¬(mtV r tri < 0 ∨ 1 < mtU r tri + mtV r tri) →
        epsilon < mtT r tri →
        r.IntersectsTriangle tri =
          (r.origin.add (r.direction.multScalar (mtT r tri)), true))) ∧
    Ray.IntersectsTriangle ⟨⟨1/10, 1/10, 1⟩, ⟨0, 0, -1⟩⟩ exampleTriangle =
      (⟨1/10, 1/10, 0⟩, true) ∧
    Ray.IntersectsTriangle ⟨⟨51/100, 51/100, 1⟩, ⟨0, 0, -1⟩⟩ exampleTriangle =
      (Vec3Zero, false) ∧
    (∀ o : Vec3, Ray.IntersectsTriangle ⟨o, ⟨1, 0, 0⟩⟩ exampleTriangle =
      (Vec3Zero, false)) := by
  have struct : ∀ (r : Ray) (tri : Triangle),
      ((-epsilon < mtDet r tri ∧ mtDet r tri < epsilon) →
        r.IntersectsTriangle tri = (Vec3Zero, false)) ∧
      (¬(-epsilon < mtDet r tri ∧ mtDet r tri < epsilon) →
        (mtU r tri < 0 ∨ 1 < mtU r tri) →
        r.IntersectsTriangle tri = (Vec3Zero, false)) ∧
      (¬(-epsilon < mtDet r tri ∧ mtDet r tri < epsilon) →
        ¬(mtU r tri < 0 ∨ 1 < mtU r tri) →
        (mtV r tri < 0 ∨ 1 < mtU r tri + mtV r tri) →
        r.IntersectsTriangle tri = (Vec3Zero, false)) ∧
      (¬(-epsilon < mtDet r tri ∧ mtDet r tri < epsilon) →
        ¬(mtU r tri < 0 ∨ 1 < mtU r tri) →
        ¬(mtV r tri < 0 ∨ 1 < mtU r tri + mtV r tri) →
        mtT r tri ≤ epsilon →
        r.IntersectsTriangle tri = (Vec3Zero, false)) ∧
      (¬(-epsilon < mtDet r tri ∧ mtDet r tri < epsilon) →
        ¬(mtU r tri < 0 ∨ 1 < mtU r tri) →
        ¬(mtV r tri < 0 ∨ 1 < mtU r tri + mtV r tri) →
        epsilon < mtT r tri →
        r.IntersectsTriangle tri =
          (r.origin.add (r.direction.multScalar (mtT r tri)), true)) := by
    intro r tri
    simp only [Ray.IntersectsTriangle, mtDet, mtU, mtV, mtT]
    refine ⟨fun h => by rw [if_pos h],
            fun h1 h2 => by rw [if_neg h1, if_pos h2],
            fun h1 h2 h3 => by rw [if_neg h1, if_neg h2, if_pos h3],
            fun h1 h2 h3 h4 => ?_,
            fun h1 h2 h3 h4 => ?_⟩
    · rw [if_neg h1, if_neg h2, if_neg h3, if_neg (by exact not_lt.mpr h4)]
    · rw [if_neg h1, if_neg h2, if_neg h3, if_pos h4]
  refine ⟨struct, ?_, ?_, fun o => ?_⟩
  · have h := (struct ⟨⟨1/10, 1/10, 1⟩, ⟨0, 0, -1⟩⟩ exampleTriangle).2.2.2.2
      (by norm_num [mtDet, exampleTriangle, Vec3.diff, Vec3.cross, Vec3.dot, epsilon])
      (by norm_num [mtU, mtDet, exampleTriangle, Vec3.diff, Vec3.cross, Vec3.dot])
      (by norm_num [mtU, mtV, mtDet, exampleTriangle, Vec3.diff, Vec3.cross, Vec3.dot])
      (by norm_num [mtT, mtDet, exampleTriangle, Vec3.diff, Vec3.cross, Vec3.dot, epsilon])
    rw [h]
    norm_num [mtT, mtDet, exampleTriangle, Vec3.diff, Vec3.cross, Vec3.dot,
      Vec3.add, Vec3.multScalar]
  · exact (struct ⟨⟨51/100, 51/100, 1⟩, ⟨0, 0, -1⟩⟩ exampleTriangle).2.2.1
      (by norm_num [mtDet, exampleTriangle, Vec3.diff, Vec3.cross, Vec3.dot, epsilon])
      (by norm_num [mtU, mtDet, exampleTriangle, Vec3.diff, Vec3.cross, Vec3.dot])
      (by norm_num [mtU, mtV, mtDet, exampleTriangle, Vec3.diff, Vec3.cross, Vec3.dot])
  · exact (struct ⟨o, ⟨1, 0, 0⟩⟩ exampleTriangle).1
      (by norm_num [mtDet, exampleTriangle, Vec3.diff, Vec3.cross, Vec3.dot, epsilon])

/-- Witness for C3: the structural part applied to the spec's first
example ray and triangle, yielding the concrete hit point. -/
theorem c3_intersectsTriangle_witness :
    Ray.IntersectsTriangle ⟨⟨1/10, 1/10, 1⟩, ⟨0, 0, -1⟩⟩ exampleTriangle =
      ((⟨1/10, 1/10, 1⟩ : Vec3).add
        ((⟨0, 0, -1⟩ : Vec3).multScalar
          (mtT ⟨⟨1/10, 1/10, 1⟩, ⟨0, 0, -1⟩⟩ exampleTriangle)), true) :=
  ((c3_intersectsTriangle.1 ⟨⟨1/10, 1/10, 1⟩, ⟨0, 0, -1⟩⟩ exampleTriangle).2.2.2.2
    (by norm_num [mtDet, exampleTriangle, Vec3.diff, Vec3.cross, Vec3.dot, epsilon])
    (by norm_num [mtU, mtDet, exampleTriangle, Vec3.diff, Vec3.cross, Vec3.dot])
    (by norm_num [mtU, mtV, mtDet, exampleTriangle, Vec3.diff, Vec3.cross, Vec3.dot])
    (by norm_num [mtT, mtDet, exampleTriangle, Vec3.diff, Vec3.cross, Vec3.dot, epsilon]))

/-- C4: `Validate` is total by construction (the model returns a findings
list on every `Solid`, with fully healthy triangles omitted — second
conjunct), and on a closed manifold solid with non-degenerate triangles
and normals within 90° of the recomputed ones (each directed edge unique,
each reversed edge matched exactly once) it returns the empty findings
map (first conjunct). -/
theorem c4_validate_manifold (s : Solid) :
    ((∀ i, i < s.triangles.length →
        (s.triangles.getD i exampleTriangle).hasEqualVertices = false ∧
        (s.triangles.getD i exampleTriangle).checkNormal = true ∧
        ∀ e, e < 3 →
          otherTrianglesWithEdge s.triangles
            ((s.triangles.getD i exampleTriangle).vert e)
            ((s.triangles.getD i exampleTriangle).vert ((e + 1) % 3)) i = [] ∧
          (otherTrianglesWithEdge s.triangles
            ((s.triangles.getD i exampleTriangle).vert ((e + 1) % 3))
            ((s.triangles.getD i exampleTriangle).vert e) i).length = 1) →
      s.Validate = []) ∧
    (∀ i, processTriangle s.triangles i (s.triangles.getD i exampleTriangle) =
        none → s.findingsAt i = none) := by
  constructor
  · intro h
    unfold Solid.Validate
    rw [List.filterMap_eq_nil_iff]
    rw [List.forall_mem_enum]
    intro i hi
    obtain ⟨hEq, hNorm, hEdges⟩ := h i hi
    have hgetD : s.triangles.getD i exampleTriangle = s.triangles[i] :=
      List.getD_eq_getElem s.triangles exampleTriangle hi
    rw [← hgetD]
    have hP : processTriangle s.triangles i (s.triangles.getD i exampleTriangle) =
        none := by
      simp only [processTriangle, hEq, hNorm, Bool.false_eq_true, if_false,
        not_true_eq_false,
        processEdge_skip _ _ _ 0 _ (hEdges 0 (by omega)).1 (hEdges 0 (by omega)).2,
        processEdge_skip _ _ _ 1 _ (hEdges 1 (by omega)).1 (hEdges 1 (by omega)).2,
        processEdge_skip _ _ _ 2 _ (hEdges 2 (by omega)).1 (hEdges 2 (by omega)).2]
    rw [hP]
    rfl
  · intro i hP
    rw [findingsAt_eq]
    by_cases hi : i < s.triangles.length
    · rw [if_pos hi]
      exact hP
    · rw [if_neg hi]

set_option maxRecDepth 10000 in
/-- Witness for C4: the tetrahedron fixture is closed and manifold, and
its findings map is empty; triangle `0` is healthy and omitted. -/
theorem c4_validate_manifold_witness :
    tetraSolid.Validate = [] ∧ tetraSolid.findingsAt 0 = none := by
  constructor
  · refine (c4_validate_manifold tetraSolid).1 ?_
    intro i hi
    have h4 : i < 4 := by simpa [tetraSolid] using hi
    interval_cases i <;>
      refine ⟨by with_unfolding_all rfl, by with_unfolding_all rfl, ?_⟩ <;>
      (intro e he
       interval_cases e <;>
         exact ⟨by with_unfolding_all rfl, by with_unfolding_all rfl⟩)
  · exact (c4_validate_manifold tetraSolid).2 0 (by with_unfolding_all rfl)

/-- C9: `Validate` is a pure function of the triangle sequence — two
calls on the same (unmutated) `Solid`, or on any two solids with equal
triangle lists, yield identical findings.  (The embedding is functional:
the translation of `Validate` performs no writes to the `Solid`, matching
the Go code, which only reads `s.Triangles`.) -/
theorem c9_validate_deterministic (s₁ s₂ : Solid)
    (h : s₁.triangles = s₂.triangles) : s₁.Validate = s₂.Validate := by
  unfold Solid.Validate
  rw [h]

/-- Witness for C9: two solids sharing triangles but differing in name. -/
theorem c9_validate_deterministic_witness :
    ({ tetraSolid with name := "a" } : Solid).Validate =
      ({ tetraSolid with name := "b" } : Solid).Validate :=
  c9_validate_deterministic _ _ rfl

/-! ### Scanner stream lemmas

`streamRest` abstracts the scanner state to the list of words it has not
yet presented; `nextWord` pops exactly one word of it, transparently
crossing line boundaries. -/

/-- When `findLine` finds no word-bearing line, the remaining lines hold
no words. -/
theorem findLine_eq_none (lines : List String)
    (h : (findLine lines).2 = none) :
    (lines.map splitWords).flatten = [] := by
  induction lines with
  | nil => rfl
  | cons l ls ih =>
    simp only [findLine] at h
    cases hw : splitWords l with
    | nil =>
      rw [hw] at h
      simp only [List.map_cons, List.flatten_cons, hw, List.nil_append]
      exact ih (by
        cases hf : findLine ls with
        | mk k r => rw [hf] at h; exact h)
    | cons w ws =>
      rw [hw] at h
      exact Option.noConfusion h

/-- When `findLine` finds a word-bearing line, the words of the remaining
lines decompose accordingly. -/
theorem findLine_eq_some (lines : List String) (l w : String)
    (ws : List String) (rest : List String)
    (h : (findLine lines).2 = some (l, w, ws, rest)) :
    (lines.map splitWords).flatten = w :: (ws ++ (rest.map splitWords).flatten) := by
  induction lines with
  | nil => exact Option.noConfusion h
  | cons l0 ls ih =>
    simp only [findLine] at h
    cases hw : splitWords l0 with
    | nil =>
      rw [hw] at h
      simp only [List.map_cons, List.flatten_cons, hw, List.nil_append]
      exact ih (by
        cases hf : findLine ls with
        | mk k r => rw [hf] at h; exact h)
    | cons w0 ws0 =>
      rw [hw] at h
      simp only [Option.some.injEq, Prod.mk.injEq] at h
      obtain ⟨h1, h2, h3, h4⟩ := h
      simp only [List.map_cons, List.flatten_cons, hw, h2, h3, h4]
      simp

/-- An exhausted stream: `nextWord` fails and forces `eof`. -/
theorem nextWord_stream_nil (st : ScanState) (he : st.eof = false)
    (h : streamRest st = []) :
    (nextWord st).1 = false ∧ (nextWord st).2.eof = true := by
  unfold streamRest at h
  rw [List.append_eq_nil] at h
  obtain ⟨h1, h2⟩ := h
  unfold nextWord
  rw [he, if_neg (by simp)]
  rw [h1]
  unfold nextLine
  cases hf : findLine st.restLines with
  | mk k r =>
    cases r with
    | none => exact ⟨rfl, rfl⟩
    | some q =>
      obtain ⟨l, w, ws, rest⟩ := q
      have := findLine_eq_some st.restLines l w ws rest (by rw [hf])
      rw [h2] at this
      exact List.noConfusion this

/-- A nonexhausted stream: `nextWord` yields its head word and the tail
stream. -/
theorem nextWord_stream_cons (st : ScanState) (w : String) (r : List String)
    (he : st.eof = false) (h : streamRest st = w :: r) :
    (nextWord st).1 = true ∧ (nextWord st).2.eof = false ∧
      (nextWord st).2.currentWord = w ∧ streamRest (nextWord st).2 = r := by
  unfold streamRest at h
  unfold nextWord
  rw [he, if_neg (by simp)]
  cases hrw : st.restWords with
  | cons w0 ws0 =>
    rw [hrw] at h
    simp only [List.cons_append, List.cons.injEq] at h
    obtain ⟨h1, h2⟩ := h
    subst h1
    exact ⟨rfl, rfl, rfl, by simp [streamRest, h2]⟩
  | nil =>
    rw [hrw] at h
    simp only [List.nil_append] at h
    unfold nextLine
    cases hf : findLine st.restLines with
    | mk k ro =>
      cases ro with
      | none =>
        have := findLine_eq_none st.restLines (by rw [hf])
        rw [h] at this
        exact List.noConfusion this
      | some q =>
        obtain ⟨l, w1, ws1, rest1⟩ := q
        have hdec := findLine_eq_some st.restLines l w1 ws1 rest1 (by rw [hf])
        rw [h] at hdec
        simp only [List.cons.injEq] at hdec
        obtain ⟨h1, h2⟩ := hdec
        subst h1
        exact ⟨rfl, he, rfl, by simp [streamRest, h2]⟩

/-- A successful `nextWord` consumes exactly one word of the remaining
stream. -/
theorem nextWord_totalWords (st : ScanState) (h : (nextWord st).1 = true) :
    totalWords (nextWord st).2 < totalWords st := by
  cases he : st.eof with
  | true =>
    have hfalse : (nextWord st).1 = false := by
      unfold nextWord
      rw [he]
      simp
    rw [hfalse] at h
    exact Bool.noConfusion h
  | false =>
    cases hs : streamRest st with
    | nil => exact absurd h (by simp [(nextWord_stream_nil st he hs).1])
    | cons w r =>
      have := (nextWord_stream_cons st w r he hs).2.2.2
      unfold totalWords
      rw [this, hs]
      simp

/-- A failing `nextWord` leaves (or puts) the scanner at end of stream. -/
theorem nextWord_false_eof (st : ScanState) (h : (nextWord st).1 = false) :
    (nextWord st).2.eof = true := by
  cases he : st.eof with
  | true =>
    unfold nextWord
    rw [he]
    simpa using he
  | false =>
    cases hs : streamRest st with
    | nil => exact (nextWord_stream_nil st he hs).2
    | cons w r => exact absurd h (by simp [(nextWord_stream_cons st w r he hs).1])

/-! ### Fuel adequacy

The fuel values `Parse` supplies (`totalWords st + 1` per `skipToToken`
call, `totalWords st + 2` loop iterations) always suffice: every
continuing step either consumes a word or reaches end of stream.  The
stability theorems below make this formal: adding fuel beyond those
bounds never changes the result, so the fuel-based definitions coincide
with Go's unbounded loops. -/

/-- `nextWord` at end of stream does nothing. -/
theorem nextWord_eof (st : ScanState) (h : st.eof = true) :
    nextWord st = (false, st) := by
  unfold nextWord
  rw [h]
  simp

/-- `nextWord` never adds words. -/
theorem nextWord_tw_le (st : ScanState) :
    totalWords (nextWord st).2 ≤ totalWords st := by
  cases he : st.eof with
  | true => rw [nextWord_eof st he]
  | false =>
    cases hs : streamRest st with
    | nil =>
      unfold nextWord
      rw [he]
      simp only [Bool.false_eq_true, if_false]
      unfold streamRest at hs
      rw [List.append_eq_nil] at hs
      rw [hs.1]
      unfold nextLine
      cases hf : findLine st.restLines with
      | mk k r =>
        cases r with
        | none => simp [totalWords, streamRest]
        | some q =>
          obtain ⟨l, w, ws, rest⟩ := q
          have := findLine_eq_some st.restLines l w ws rest (by rw [hf])
          rw [hs.2] at this
          exact List.noConfusion this
    | cons w r =>
      have h := (nextWord_stream_cons st w r he hs).2.2.2
      unfold totalWords
      rw [h, hs]
      simp

/-- `nextWord` preserves end of stream. -/
theorem nextWord_eof_mono (st : ScanState) (h : st.eof = true) :
    (nextWord st).2.eof = true := by
  rw [nextWord_eof st h]
  exact h

/-- `skipToToken` (at the fuel `Parse` supplies): the synchronization
loop either stops on a word matching the recovery set — reporting which
keyword matched, the cursor standing on it — or reaches end of stream
and reports `idNone`. -/
theorem skipToTokenF_spec :
    ∀ (f : Nat) (i : Ident) (st : ScanState), totalWords st < f →
      ((skipToTokenF f i st).1 = none → (skipToTokenF f i st).2.eof = true) ∧
      (∀ r, (skipToTokenF f i st).1 = some r →
        identMatches i (skipToTokenF f i st).2.currentWord = true) ∧
      ((skipToTokenF f i st).1 = some Ident.facet → i = Ident.facetOrEndsolid →
        (skipToTokenF f i st).2.currentWord = "facet") ∧
      ((skipToTokenF f i st).1 = some Ident.endsolid → i = Ident.facetOrEndsolid →
        (skipToTokenF f i st).2.currentWord = "endsolid") := by
  intro f
  induction f with
  | zero => intro i st h; omega
  | succ f ih =>
    intro i st h
    unfold skipToTokenF
    by_cases hm : identMatches i st.currentWord = true
    · rw [if_pos hm]
      by_cases hfe : i = Ident.facetOrEndsolid
      · rw [if_pos hfe]
        by_cases hfa : identMatches Ident.facet st.currentWord = true
        · rw [if_pos hfa]
          refine ⟨by intro hc; exact Option.noConfusion hc, fun r _ => hm, ?_, ?_⟩
          · intro _ _
            simpa [identMatches] using hfa
          · intro hc
            exact absurd hc (by simp)
        · rw [if_neg hfa]
          refine ⟨by intro hc; exact Option.noConfusion hc, fun r _ => hm, ?_, ?_⟩
          · intro hc
            exact absurd hc (by simp)
          · intro _ _
            subst hfe
            have : st.currentWord = "facet" ∨ st.currentWord = "endsolid" := by
              simpa [identMatches] using hm
            rcases this with hw | hw
            · exact absurd (by simp [identMatches, hw]) hfa
            · exact hw
      · rw [if_neg hfe]
        refine ⟨by intro hc; exact Option.noConfusion hc, fun r _ => hm, ?_, ?_⟩
        · intro hc hie
          exact absurd hie hfe
        · intro hc hie
          exact absurd hie hfe
    · rw [if_neg hm]
      cases hnw : nextWord st with
      | mk b st1 =>
        cases b with
        | false =>
          have heof : st1.eof = true := by
            have := nextWord_false_eof st (by rw [hnw])
            rwa [hnw] at this
          exact ⟨fun _ => heof, fun r hc => Option.noConfusion hc,
            fun hc => Option.noConfusion hc, fun hc => Option.noConfusion hc⟩
        | true =>
          have hlt : totalWords st1 < f := by
            have h2 := nextWord_totalWords st (by rw [hnw])
            rw [hnw] at h2
            dsimp only at h2
            omega
          exact ih i st1 hlt

/-- Shape of a `consumeToken` outcome: advance on a match, or record one
`"X" expected` diagnostic and stand still. -/
theorem consumeToken_shape (i : Ident) (st : ScanState) :
    consumeToken i st = (true, (nextWord st).2, []) ∨
      consumeToken i st =
        (false, st, [diag st.line ("\"" ++ identText i ++ "\" expected")]) := by
  unfold consumeToken
  by_cases h : identMatches i st.currentWord = true
  · rw [if_pos h]
    exact Or.inl rfl
  · rw [if_neg h]
    exact Or.inr rfl

/-- Shape of a `parseFloat64` outcome: a value and one word consumed, a
parse-failure diagnostic, or the silent end-of-stream failure. -/
theorem parseFloat64_shape (st : ScanState) :
    (∃ q, parseFloat64 st = (some q, (nextWord st).2, [])) ∨
      parseFloat64 st = (none, st, [diag st.line "Unable to parse float"]) ∨
      (st.eof = true ∧ parseFloat64 st = (none, st, [])) := by
  unfold parseFloat64
  by_cases he : st.eof = true
  · rw [if_pos he]
    exact Or.inr (Or.inr ⟨he, rfl⟩)
  · rw [if_neg he]
    cases hg : goParseFloat32 st.currentWord with
    | none => exact Or.inr (Or.inl rfl)
    | some q => exact Or.inl ⟨q, rfl⟩

/-- Shape of a `parsePoint` outcome: a parsed point with no diagnostics,
or a failure that is one float diagnostic or the silent end-of-stream
case. -/
theorem parsePoint_shape (st : ScanState) :
    (∃ v, (parsePoint st).1 = some v ∧ (parsePoint st).2.2 = []) ∨
      ((parsePoint st).1 = none ∧
        FacetFailDiags (parsePoint st).2.1 (parsePoint st).2.2) := by
  rcases parseFloat64_shape st with ⟨q1, h1⟩ | h1 | ⟨he1, h1⟩
  · rcases parseFloat64_shape (nextWord st).2 with ⟨q2, h2⟩ | h2 | ⟨he2, h2⟩
    · rcases parseFloat64_shape (nextWord (nextWord st).2).2 with
        ⟨q3, h3⟩ | h3 | ⟨he3, h3⟩
      · exact Or.inl ⟨⟨q1, q2, q3⟩, by simp [parsePoint, h1, h2, h3],
          by simp [parsePoint, h1, h2, h3]⟩
      · refine Or.inr ⟨by simp [parsePoint, h1, h2, h3],
          Or.inl ⟨(nextWord (nextWord st).2).2.line, "Unable to parse float",
            by simp [facetStepMsgs], by simp [parsePoint, h1, h2, h3]⟩⟩
      · exact Or.inr ⟨by simp [parsePoint, h1, h2, h3],
          Or.inr ⟨by simp [parsePoint, h1, h2, h3, he3],
            by simp [parsePoint, h1, h2, h3]⟩⟩
    · refine Or.inr ⟨by simp [parsePoint, h1, h2],
        Or.inl ⟨(nextWord st).2.line, "Unable to parse float",
          by simp [facetStepMsgs], by simp [parsePoint, h1, h2]⟩⟩
    · exact Or.inr ⟨by simp [parsePoint, h1, h2],
        Or.inr ⟨by simp [parsePoint, h1, h2, he2], by simp [parsePoint, h1, h2]⟩⟩
  · refine Or.inr ⟨by simp [parsePoint, h1],
      Or.inl ⟨st.line, "Unable to parse float", by simp [facetStepMsgs],
        by simp [parsePoint, h1]⟩⟩
  · exact Or.inr ⟨by simp [parsePoint, h1],
      Or.inr ⟨by simp [parsePoint, h1, he1], by simp [parsePoint, h1]⟩⟩

/-- `parsePoint` outcomes in tuple form. -/
theorem parsePoint_shape_tuple (st : ScanState) :
    (∃ v stq, parsePoint st = (some v, stq, [])) ∨
      (∃ stq ds, parsePoint st = (none, stq, ds) ∧ FacetFailDiags stq ds) := by
  rcases hp : parsePoint st with ⟨o, stq, ds⟩
  rcases parsePoint_shape st with ⟨v, h1, h2⟩ | ⟨h1, h2⟩ <;> rw [hp] at h1 h2 <;>
    dsimp only at h1 h2
  · subst h1
    subst h2
    exact Or.inl ⟨v, stq, rfl⟩
  · subst h1
    exact Or.inr ⟨stq, ds, rfl, h2⟩

/-- The state a `parseFloat64` call leaves: unchanged or advanced one
word. -/
theorem parseFloat64_state (st : ScanState) :
    (parseFloat64 st).2.1 = st ∨ (parseFloat64 st).2.1 = (nextWord st).2 := by
  rcases parseFloat64_shape st with ⟨q, h⟩ | h | ⟨he, h⟩ <;> rw [h] <;> simp

/-- `parseFloat64` never adds words and preserves end of stream. -/
theorem parseFloat64_frame (st : ScanState) :
    totalWords (parseFloat64 st).2.1 ≤ totalWords st ∧
      (st.eof = true → (parseFloat64 st).2.1.eof = true) := by
  rcases parseFloat64_state st with h | h <;> rw [h]
  · exact ⟨le_refl _, fun he => he⟩
  · exact ⟨nextWord_tw_le st, nextWord_eof_mono st⟩

/-- The state a `parsePoint` call leaves: zero to three words consumed. -/
theorem parsePoint_state (st : ScanState) :
    (parsePoint st).2.1 = st ∨ (parsePoint st).2.1 = (nextWord st).2 ∨
      (parsePoint st).2.1 = (nextWord (nextWord st).2).2 ∨
      (parsePoint st).2.1 =
        (nextWord (nextWord (nextWord st).2).2).2 := by
  rcases parseFloat64_shape st with ⟨q1, h1⟩ | h1 | ⟨he1, h1⟩
  · rcases parseFloat64_shape (nextWord st).2 with ⟨q2, h2⟩ | h2 | ⟨he2, h2⟩
    · rcases parseFloat64_shape (nextWord (nextWord st).2).2 with
        ⟨q3, h3⟩ | h3 | ⟨he3, h3⟩ <;>
        simp [parsePoint, h1, h2, h3]
    · simp [parsePoint, h1, h2]
    · simp [parsePoint, h1, h2]
  · simp [parsePoint, h1]
  · simp [parsePoint, h1]

/-- `parsePoint` never adds words and preserves end of stream. -/
theorem parsePoint_frame (st : ScanState) :
    totalWords (parsePoint st).2.1 ≤ totalWords st ∧
      (st.eof = true → (parsePoint st).2.1.eof = true) := by
  rcases parsePoint_state st with h | h | h | h <;> rw [h]
  · exact ⟨le_refl _, fun he => he⟩
  · exact ⟨nextWord_tw_le st, nextWord_eof_mono st⟩
  · exact ⟨le_trans (nextWord_tw_le _) (nextWord_tw_le st),
      fun he => nextWord_eof_mono _ (nextWord_eof_mono st he)⟩
  · exact ⟨le_trans (nextWord_tw_le _)
        (le_trans (nextWord_tw_le _) (nextWord_tw_le st)),
      fun he => nextWord_eof_mono _ (nextWord_eof_mono _
        (nextWord_eof_mono st he))⟩

/-- The state a `consumeToken` call leaves: unchanged or advanced one
word. -/
theorem consumeToken_state (i : Ident) (st : ScanState) :
    (consumeToken i st).2.1 = st ∨ (consumeToken i st).2.1 = (nextWord st).2 := by
  rcases consumeToken_shape i st with h | h <;> rw [h] <;> simp

/-- `consumeToken` never adds words and preserves end of stream. -/
theorem consumeToken_frame (i : Ident) (st : ScanState) :
    totalWords (consumeToken i st).2.1 ≤ totalWords st ∧
      (st.eof = true → (consumeToken i st).2.1.eof = true) := by
  rcases consumeToken_state i st with h | h <;> rw [h]
  · exact ⟨le_refl _, fun he => he⟩
  · exact ⟨nextWord_tw_le st, nextWord_eof_mono st⟩

/-- A failing `parseFacet` records exactly one diagnostic naming the
failing expectation — except when the stream ends at a float literal,
where it records none and leaves the scanner at end of stream. -/
theorem parseFacet_none_diags (st : ScanState) (h : (parseFacet st).1 = none) :
    FacetFailDiags (parseFacet st).2.1 (parseFacet st).2.2 := by
  rcases consumeToken_shape Ident.facet st with hc1 | hc1
  swap
  · exact Or.inl ⟨st.line, "\"facet\" expected", by simp [facetStepMsgs],
      by simp [parseFacet, hc1, identText]⟩
  rcases consumeToken_shape Ident.normal (nextWord st).2 with hc2 | hc2
  swap
  · exact Or.inl ⟨(nextWord st).2.line, "\"normal\" expected",
      by simp [facetStepMsgs], by simp [parseFacet, hc1, hc2, identText]⟩
  rcases parsePoint_shape_tuple (nextWord (nextWord st).2).2 with
    ⟨v1, sq1, hp1⟩ | ⟨sq1, ds1, hp1, hFF1⟩
  swap
  · rcases hFF1 with ⟨n, msg, hmem, hds⟩ | ⟨heof, hds⟩
    · exact Or.inl ⟨n, msg, hmem, by simp [parseFacet, hc1, hc2, hp1, hds]⟩
    · exact Or.inr ⟨by simp [parseFacet, hc1, hc2, hp1, heof],
        by simp [parseFacet, hc1, hc2, hp1, hds]⟩
  rcases consumeToken_shape Ident.outer sq1 with hc4 | hc4
  swap
  · exact Or.inl ⟨sq1.line, "\"outer\" expected", by simp [facetStepMsgs],
      by simp [parseFacet, hc1, hc2, hp1, hc4, identText]⟩
  rcases consumeToken_shape Ident.loop (nextWord sq1).2 with hc5 | hc5
  swap
  · exact Or.inl ⟨(nextWord sq1).2.line, "\"loop\" expected",
      by simp [facetStepMsgs],
      by simp [parseFacet, hc1, hc2, hp1, hc4, hc5, identText]⟩
  rcases consumeToken_shape Ident.vertex (nextWord (nextWord sq1).2).2 with hc6 | hc6
  swap
  · exact Or.inl ⟨(nextWord (nextWord sq1).2).2.line, "\"vertex\" expected",
      by simp [facetStepMsgs],
      by simp [parseFacet, hc1, hc2, hp1, hc4, hc5, hc6, identText]⟩
  rcases parsePoint_shape_tuple (nextWord (nextWord (nextWord sq1).2).2).2 with
    ⟨v2, sq2, hp2⟩ | ⟨sq2, ds2, hp2, hFF2⟩
  swap
  · rcases hFF2 with ⟨n, msg, hmem, hds⟩ | ⟨heof, hds⟩
    · exact Or.inl ⟨n, msg, hmem,
        by simp [parseFacet, hc1, hc2, hp1, hc4, hc5, hc6, hp2, hds]⟩
    · exact Or.inr
        ⟨by simp [parseFacet, hc1, hc2, hp1, hc4, hc5, hc6, hp2, heof],
         by simp [parseFacet, hc1, hc2, hp1, hc4, hc5, hc6, hp2, hds]⟩
  rcases consumeToken_shape Ident.vertex sq2 with hc8 | hc8
  swap
  · exact Or.inl ⟨sq2.line, "\"vertex\" expected", by simp [facetStepMsgs],
      by simp [parseFacet, hc1, hc2, hp1, hc4, hc5, hc6, hp2, hc8, identText]⟩
  rcases parsePoint_shape_tuple (nextWord sq2).2 with
    ⟨v3, sq3, hp3⟩ | ⟨sq3, ds3, hp3, hFF3⟩
  swap
  · rcases hFF3 with ⟨n, msg, hmem, hds⟩ | ⟨heof, hds⟩
    · exact Or.inl ⟨n, msg, hmem,
        by simp [parseFacet, hc1, hc2, hp1, hc4, hc5, hc6, hp2, hc8, hp3, hds]⟩
    · exact Or.inr
        ⟨by simp [parseFacet, hc1, hc2, hp1, hc4, hc5, hc6, hp2, hc8, hp3, heof],
         by simp [parseFacet, hc1, hc2, hp1, hc4, hc5, hc6, hp2, hc8, hp3, hds]⟩
  rcases consumeToken_shape Ident.vertex sq3 with hc10 | hc10
  swap
  · exact Or.inl ⟨sq3.line, "\"vertex\" expected", by simp [facetStepMsgs],
      by simp [parseFacet, hc1, hc2, hp1, hc4, hc5, hc6, hp2, hc8, hp3, hc10,
        identText]⟩
  rcases parsePoint_shape_tuple (nextWord sq3).2 with
    ⟨v4, sq4, hp4⟩ | ⟨sq4, ds4, hp4, hFF4⟩
  swap
  · rcases hFF4 with ⟨n, msg, hmem, hds⟩ | ⟨heof, hds⟩
    · exact Or.inl ⟨n, msg, hmem,
        by simp [parseFacet, hc1, hc2, hp1, hc4, hc5, hc6, hp2, hc8, hp3, hc10,
          hp4, hds]⟩
    · exact Or.inr
        ⟨by simp [parseFacet, hc1, hc2, hp1, hc4, hc5, hc6, hp2, hc8, hp3, hc10,
            hp4, heof],
         by simp [parseFacet, hc1, hc2, hp1, hc4, hc5, hc6, hp2, hc8, hp3, hc10,
            hp4, hds]⟩
  rcases consumeToken_shape Ident.endloop sq4 with hc12 | hc12
  swap
  · exact Or.inl ⟨sq4.line, "\"endloop\" expected", by simp [facetStepMsgs],
      by simp [parseFacet, hc1, hc2, hp1, hc4, hc5, hc6, hp2, hc8, hp3, hc10,
        hp4, hc12, identText]⟩
  rcases consumeToken_shape Ident.endfacet (nextWord sq4).2 with hc13 | hc13
  swap
  · exact Or.inl ⟨(nextWord sq4).2.line, "\"endfacet\" expected",
      by simp [facetStepMsgs],
      by simp [parseFacet, hc1, hc2, hp1, hc4, hc5, hc6, hp2, hc8, hp3, hc10,
        hp4, hc12, hc13, identText]⟩
  exact absurd h (by
    simp [parseFacet, hc1, hc2, hp1, hc4, hc5, hc6, hp2, hc8, hp3, hc10, hp4,
      hc12, hc13])

/-- Chase through `parseFacet`: the resulting scanner state never has
more words than the input, end of stream is preserved, and whenever the
current word is `facet` (so the first `consumeToken` advances) the call
strictly consumes words unless it leaves the scanner at end of
stream. -/
theorem parseFacet_chase (st : ScanState) :
    totalWords (parseFacet st).2.1 ≤ totalWords st ∧
      (st.eof = true → (parseFacet st).2.1.eof = true) ∧
      (identMatches Ident.facet st.currentWord = true →
        totalWords (parseFacet st).2.1 < totalWords st ∨
          (parseFacet st).2.1.eof = true) := by
  rcases hc1 : consumeToken Ident.facet st with ⟨b1, st1, ds1⟩
  have f1 := consumeToken_frame Ident.facet st
  simp only [hc1] at f1
  cases b1 with
  | false =>
    simp only [parseFacet, hc1]
    refine ⟨f1.1, f1.2, fun hm => ?_⟩
    have hct : consumeToken Ident.facet st = (true, (nextWord st).2, []) := by
      unfold consumeToken
      rw [if_pos hm]
    rw [hc1] at hct
    simp at hct
  | true =>
    have hout : ∀ stk : ScanState, totalWords stk ≤ totalWords st1 →
        (st1.eof = true → stk.eof = true) →
        totalWords stk ≤ totalWords st ∧ (st.eof = true → stk.eof = true) ∧
          (identMatches Ident.facet st.currentWord = true →
            totalWords stk < totalWords st ∨ stk.eof = true) := by
      intro stk hle hmono
      refine ⟨le_trans hle f1.1, fun h => hmono (f1.2 h), fun hm => ?_⟩
      have hct : consumeToken Ident.facet st = (true, (nextWord st).2, []) := by
        unfold consumeToken
        rw [if_pos hm]
      rw [hc1] at hct
      have hst1 : st1 = (nextWord st).2 := congrArg (fun p => p.2.1) hct
      cases hnw : (nextWord st).1 with
      | true =>
        exact Or.inl (lt_of_le_of_lt (hst1 ▸ hle) (nextWord_totalWords st hnw))
      | false =>
        refine Or.inr (hmono ?_)
        rw [hst1]
        exact nextWord_false_eof st hnw
    rcases hc2 : consumeToken Ident.normal st1 with ⟨b2, st2, ds2⟩
    have f2 := consumeToken_frame Ident.normal st1
    simp only [hc2] at f2
    have g2l : totalWords st2 ≤ totalWords st1 := f2.1
    have g2m : st1.eof = true → st2.eof = true := f2.2
    cases b2 with
    | false =>
      simp only [parseFacet, hc1, hc2]
      exact hout st2 g2l g2m
    | true =>
      rcases hc3 : parsePoint st2 with ⟨o3, st3, ds3⟩
      have f3 := parsePoint_frame st2
      simp only [hc3] at f3
      have g3l : totalWords st3 ≤ totalWords st1 := le_trans f3.1 g2l
      have g3m : st1.eof = true → st3.eof = true := fun h => f3.2 (g2m h)
      cases o3 with
      | none =>
        simp only [parseFacet, hc1, hc2, hc3]
        exact hout st3 g3l g3m
      | some n =>
        rcases hc4 : consumeToken Ident.outer st3 with ⟨b4, st4, ds4⟩
        have f4 := consumeToken_frame Ident.outer st3
        simp only [hc4] at f4
        have g4l : totalWords st4 ≤ totalWords st1 := le_trans f4.1 g3l
        have g4m : st1.eof = true → st4.eof = true := fun h => f4.2 (g3m h)
        cases b4 with
        | false =>
          simp only [parseFacet, hc1, hc2, hc3, hc4]
          exact hout st4 g4l g4m
        | true =>
          rcases hc5 : consumeToken Ident.loop st4 with ⟨b5, st5, ds5⟩
          have f5 := consumeToken_frame Ident.loop st4
          simp only [hc5] at f5
          have g5l : totalWords st5 ≤ totalWords st1 := le_trans f5.1 g4l
          have g5m : st1.eof = true → st5.eof = true := fun h => f5.2 (g4m h)
          cases b5 with
          | false =>
            simp only [parseFacet, hc1, hc2, hc3, hc4, hc5]
            exact hout st5 g5l g5m
          | true =>
            rcases hc6 : consumeToken Ident.vertex st5 with ⟨b6, st6, ds6⟩
            have f6 := consumeToken_frame Ident.vertex st5
            simp only [hc6] at f6
            have g6l : totalWords st6 ≤ totalWords st1 := le_trans f6.1 g5l
            have g6m : st1.eof = true → st6.eof = true := fun h => f6.2 (g5m h)
            cases b6 with
            | false =>
              simp only [parseFacet, hc1, hc2, hc3, hc4, hc5, hc6]
              exact hout st6 g6l g6m
            | true =>
              rcases hc7 : parsePoint st6 with ⟨o7, st7, ds7⟩
              have f7 := parsePoint_frame st6
              simp only [hc7] at f7
              have g7l : totalWords st7 ≤ totalWords st1 := le_trans f7.1 g6l
              have g7m : st1.eof = true → st7.eof = true := fun h => f7.2 (g6m h)
              cases o7 with
              | none =>
                simp only [parseFacet, hc1, hc2, hc3, hc4, hc5, hc6, hc7]
                exact hout st7 g7l g7m
              | some a =>
                rcases hc8 : consumeToken Ident.vertex st7 with ⟨b8, st8, ds8⟩
                have f8 := consumeToken_frame Ident.vertex st7
                simp only [hc8] at f8
                have g8l : totalWords st8 ≤ totalWords st1 := le_trans f8.1 g7l
                have g8m : st1.eof = true → st8.eof = true := fun h => f8.2 (g7m h)
                cases b8 with
                | false =>
                  simp only [parseFacet, hc1, hc2, hc3, hc4, hc5, hc6, hc7, hc8]
                  exact hout st8 g8l g8m
                | true =>
                  rcases hc9 : parsePoint st8 with ⟨o9, st9, ds9⟩
                  have f9 := parsePoint_frame st8
                  simp only [hc9] at f9
                  have g9l : totalWords st9 ≤ totalWords st1 := le_trans f9.1 g8l
                  have g9m : st1.eof = true → st9.eof = true := fun h => f9.2 (g8m h)
                  cases o9 with
                  | none =>
                    simp only [parseFacet, hc1, hc2, hc3, hc4, hc5, hc6, hc7, hc8,
                      hc9]
                    exact hout st9 g9l g9m
                  | some b =>
                    rcases hc10 : consumeToken Ident.vertex st9 with ⟨b10, st10, ds10⟩
                    have f10 := consumeToken_frame Ident.vertex st9
                    simp only [hc10] at f10
                    have g10l : totalWords st10 ≤ totalWords st1 := le_trans f10.1 g9l
                    have g10m : st1.eof = true → st10.eof = true :=
                      fun h => f10.2 (g9m h)
                    cases b10 with
                    | false =>
                      simp only [parseFacet, hc1, hc2, hc3, hc4, hc5, hc6, hc7, hc8,
                        hc9, hc10]
                      exact hout st10 g10l g10m
                    | true =>
                      rcases hc11 : parsePoint st10 with ⟨o11, st11, ds11⟩
                      have f11 := parsePoint_frame st10
                      simp only [hc11] at f11
                      have g11l : totalWords st11 ≤ totalWords st1 :=
                        le_trans f11.1 g10l
                      have g11m : st1.eof = true → st11.eof = true :=
                        fun h => f11.2 (g10m h)
                      cases o11 with
                      | none =>
                        simp only [parseFacet, hc1, hc2, hc3, hc4, hc5, hc6, hc7,
                          hc8, hc9, hc10, hc11]
                        exact hout st11 g11l g11m
                      | some c =>
                        rcases hc12 : consumeToken Ident.endloop st11 with
                          ⟨b12, st12, ds12⟩
                        have f12 := consumeToken_frame Ident.endloop st11
                        simp only [hc12] at f12
                        have g12l : totalWords st12 ≤ totalWords st1 :=
                          le_trans f12.1 g11l
                        have g12m : st1.eof = true → st12.eof = true :=
                          fun h => f12.2 (g11m h)
                        cases b12 with
                        | false =>
                          simp only [parseFacet, hc1, hc2, hc3, hc4, hc5, hc6, hc7,
                            hc8, hc9, hc10, hc11, hc12]
                          exact hout st12 g12l g12m
                        | true =>
                          rcases hc13 : consumeToken Ident.endfacet st12 with
                            ⟨b13, st13, ds13⟩
                          have f13 := consumeToken_frame Ident.endfacet st12
                          simp only [hc13] at f13
                          have g13l : totalWords st13 ≤ totalWords st1 :=
                            le_trans f13.1 g12l
                          have g13m : st1.eof = true → st13.eof = true :=
                            fun h => f13.2 (g12m h)
                          cases b13 with
                          | false =>
                            simp only [parseFacet, hc1, hc2, hc3, hc4, hc5, hc6,
                              hc7, hc8, hc9, hc10, hc11, hc12, hc13]
                            exact hout st13 g13l g13m
                          | true =>
                            simp only [parseFacet, hc1, hc2, hc3, hc4, hc5, hc6,
                              hc7, hc8, hc9, hc10, hc11, hc12, hc13]
                            exact hout st13 g13l g13m

/-- One-step unfolding of `skipToTokenF` at a successor fuel. -/
theorem skipToTokenF_succ (f : Nat) (i : Ident) (st : ScanState) :
    skipToTokenF (f + 1) i st =
      if identMatches i st.currentWord then
        if i = .facetOrEndsolid then
          if identMatches .facet st.currentWord then (some .facet, st)
          else (some .endsolid, st)
        else (some i, st)
      else
        match nextWord st with
        | (false, st1) => (none, st1)
        | (true, st1) => skipToTokenF f i st1 := rfl

/-- `skipToTokenF` never adds words and preserves end of stream. -/
theorem skipToTokenF_frame : ∀ (f : Nat) (i : Ident) (st : ScanState),
    totalWords (skipToTokenF f i st).2 ≤ totalWords st ∧
      (st.eof = true → (skipToTokenF f i st).2.eof = true) := by
  intro f
  induction f with
  | zero => exact fun i st => ⟨le_refl _, fun h => h⟩
  | succ f ih =>
    intro i st
    rw [skipToTokenF_succ]
    by_cases hm : identMatches i st.currentWord = true
    · rw [if_pos hm]
      by_cases hi : i = Ident.facetOrEndsolid
      · rw [if_pos hi]
        by_cases hf : identMatches Ident.facet st.currentWord = true
        · rw [if_pos hf]
          exact ⟨le_refl _, fun h => h⟩
        · rw [if_neg hf]
          exact ⟨le_refl _, fun h => h⟩
      · rw [if_neg hi]
        exact ⟨le_refl _, fun h => h⟩
    · rw [if_neg hm]
      rcases hnw : nextWord st with ⟨b, st1⟩
      have hle : totalWords st1 ≤ totalWords st := by
        have h := nextWord_tw_le st
        rw [hnw] at h
        exact h
      have hmo : st.eof = true → st1.eof = true := by
        intro he
        have h := nextWord_eof_mono st he
        rw [hnw] at h
        exact h
      cases b with
      | false =>
        dsimp only
        have h := nextWord_false_eof st (by rw [hnw])
        rw [hnw] at h
        exact ⟨hle, fun _ => h⟩
      | true =>
        dsimp only
        rcases ih i st1 with ⟨ha, hb⟩
        exact ⟨le_trans ha hle, fun he => hb (hmo he)⟩

/-- A `skipToTokenF` call whose current word does not already match
strictly consumes words unless it ends at end of stream. -/
theorem skipToTokenF_progress (f : Nat) (i : Ident) (st : ScanState)
    (hm : identMatches i st.currentWord = false) :
    totalWords (skipToTokenF (f + 1) i st).2 < totalWords st ∨
      (skipToTokenF (f + 1) i st).2.eof = true := by
  rw [skipToTokenF_succ]
  rw [if_neg (by rw [hm]; simp)]
  rcases hnw : nextWord st with ⟨b, st1⟩
  cases b with
  | false =>
    dsimp only
    have h := nextWord_false_eof st (by rw [hnw])
    rw [hnw] at h
    exact Or.inr h
  | true =>
    dsimp only
    have hlt : totalWords st1 < totalWords st := by
      have h := nextWord_totalWords st (by rw [hnw])
      rw [hnw] at h
      exact h
    exact Or.inl (lt_of_le_of_lt (skipToTokenF_frame f i st1).1 hlt)

/-- Extra fuel beyond `totalWords` never changes a `skipToTokenF`
result. -/
theorem skipToTokenF_stable : ∀ (f : Nat) (i : Ident) (st : ScanState),
    totalWords st < f → skipToTokenF (f + 1) i st = skipToTokenF f i st := by
  intro f
  induction f with
  | zero => exact fun i st h => absurd h (by omega)
  | succ f ih =>
    intro i st h
    rw [skipToTokenF_succ (f + 1) i st, skipToTokenF_succ f i st]
    by_cases hm : identMatches i st.currentWord = true
    · rw [if_pos hm, if_pos hm]
    · rw [if_neg hm, if_neg hm]
      rcases hnw : nextWord st with ⟨b, st1⟩
      cases b with
      | false => rfl
      | true =>
        dsimp only
        have hlt : totalWords st1 < totalWords st := by
          have hx := nextWord_totalWords st (by rw [hnw])
          rw [hnw] at hx
          exact hx
        exact ih i st1 (by omega)

/-- `skipToToken`'s fixed fuel is adequate: any fuel above `totalWords`
computes the same result, so the model agrees with Go's unbounded skip
loop. -/
theorem skipToToken_fuel_adequate (i : Ident) (st : ScanState) :
    ∀ g : Nat, totalWords st < g → skipToTokenF g i st = skipToToken i st := by
  intro g
  induction g with
  | zero => exact fun h => absurd h (by omega)
  | succ g ih =>
    intro h
    rcases Nat.lt_or_ge (totalWords st) g with hlt | hge
    · rw [skipToTokenF_stable g i st hlt]
      exact ih hlt
    · have hg : g = totalWords st := by omega
      subst hg
      rfl

/-- One-step unfolding of `triangleLoopF` at a successor fuel. -/
theorem triangleLoopF_succ (f : Nat) (st : ScanState) :
    triangleLoopF (f + 1) st =
      if st.eof then ([], false, st, [])
      else if identMatches .endsolid st.currentWord then ([], false, st, [])
      else
        match
          (if identMatches .facet st.currentWord then
            (some Ident.facet, st, ([] : List String))
          else
            let d := diag st.line "\"facet\" or \"endsolid\" expected"
            let (r, st1) := skipToToken .facetOrEndsolid st
            (r, st1, [d])) with
        | (some .facet, st1, pre) =>
          match parseFacet st1 with
          | (some t, st2, ds) =>
            let (ts, sk, st3, tail) := triangleLoopF f st2
            (t :: ts, sk, st3, pre ++ ds ++ tail)
          | (none, st2, ds) =>
            let (_, st3) := skipToToken .facetOrEndsolid st2
            let (ts, _, st4, tail) := triangleLoopF f st3
            (ts, true, st4, pre ++ ds ++ tail)
        | (_, st1, pre) => ([], false, st1, pre) := rfl

/-- The triangle loop at end of stream exits at once (at any positive
fuel). -/
theorem triangleLoopF_eof (st : ScanState) (he : st.eof = true) (f : Nat) :
    triangleLoopF (f + 1) st = ([], false, st, []) := by
  rw [triangleLoopF_succ, if_pos he]

/-- Extra fuel beyond `totalWords + 2` never changes a `triangleLoopF`
result: every continuing iteration strictly consumes words or reaches
end of stream. -/
theorem triangleLoopF_stable : ∀ (f : Nat) (st : ScanState),
    totalWords st + 2 ≤ f → triangleLoopF (f + 1) st = triangleLoopF f st := by
  intro f
  induction f with
  | zero => exact fun st h => absurd h (by omega)
  | succ f ih =>
    intro st hf
    rw [triangleLoopF_succ (f + 1) st, triangleLoopF_succ f st]
    by_cases he : st.eof = true
    · rw [if_pos he, if_pos he]
    · rw [if_neg he, if_neg he]
      by_cases hm : identMatches Ident.endsolid st.currentWord = true
      · rw [if_pos hm, if_pos hm]
      · rw [if_neg hm, if_neg hm]
        obtain ⟨f1, rfl⟩ : ∃ k, f = k + 1 := ⟨f - 1, by omega⟩
        by_cases hfm : identMatches Ident.facet st.currentWord = true
        · rw [if_pos hfm]
          rcases hpf : parseFacet st with ⟨o, st2, ds⟩
          have hch := parseFacet_chase st
          simp only [hpf] at hch
          have hprog : totalWords st2 < totalWords st ∨ st2.eof = true :=
            hch.2.2 hfm
          cases o with
          | some t =>
            simp only [hpf]
            rcases hprog with hlt | heof
            · rw [ih st2 (by omega)]
            · rw [triangleLoopF_eof st2 heof (f1 + 1), triangleLoopF_eof st2 heof f1]
          | none =>
            simp only [hpf]
            rcases hsk2 : skipToToken Ident.facetOrEndsolid st2 with ⟨r2, st3⟩
            have hfr := skipToTokenF_frame (totalWords st2 + 1)
              Ident.facetOrEndsolid st2
            have hsk2f : skipToTokenF (totalWords st2 + 1) Ident.facetOrEndsolid
                st2 = (r2, st3) := hsk2
            simp only [hsk2f] at hfr
            simp only [hsk2]
            rcases hprog with hlt | heof
            · rw [ih st3 (by omega)]
            · have heof3 : st3.eof = true := hfr.2 heof
              rw [triangleLoopF_eof st3 heof3 (f1 + 1),
                triangleLoopF_eof st3 heof3 f1]
        · rw [if_neg hfm]
          have hfe : identMatches Ident.facetOrEndsolid st.currentWord = false := by
            cases hdec : identMatches Ident.facetOrEndsolid st.currentWord with
            | false => rfl
            | true =>
              exfalso
              simp only [identMatches, Bool.or_eq_true, decide_eq_true_eq] at hdec
              rcases hdec with hw | hw
              · exact hfm (by simp [identMatches, hw])
              · exact hm (by simp [identMatches, hw])
          rcases hsk : skipToToken Ident.facetOrEndsolid st with ⟨r, st1⟩
          have hskf : skipToTokenF (totalWords st + 1) Ident.facetOrEndsolid
              st = (r, st1) := hsk
          have hprog1 : totalWords st1 < totalWords st ∨ st1.eof = true := by
            have h := skipToTokenF_progress (totalWords st)
              Ident.facetOrEndsolid st hfe
            rw [hskf] at h
            exact h
          simp only [hsk]
          cases r with
          | none => rfl
          | some ri =>
            cases ri with
            | facet =>
              rcases hpf : parseFacet st1 with ⟨o, st2, ds⟩
              have hch := parseFacet_chase st1
              simp only [hpf] at hch
              have hprog2 : totalWords st2 < totalWords st ∨ st2.eof = true := by
                rcases hprog1 with hlt1 | heof1
                · exact Or.inl (lt_of_le_of_lt hch.1 hlt1)
                · exact Or.inr (hch.2.1 heof1)
              cases o with
              | some t =>
                simp only [hpf]
                rcases hprog2 with hlt | heof
                · rw [ih st2 (by omega)]
                · rw [triangleLoopF_eof st2 heof (f1 + 1),
                    triangleLoopF_eof st2 heof f1]
              | none =>
                simp only [hpf]
                rcases hsk2 : skipToToken Ident.facetOrEndsolid st2 with ⟨r2, st3⟩
                have hfr := skipToTokenF_frame (totalWords st2 + 1)
                  Ident.facetOrEndsolid st2
                have hsk2f : skipToTokenF (totalWords st2 + 1)
                    Ident.facetOrEndsolid st2 = (r2, st3) := hsk2
                simp only [hsk2f] at hfr
                simp only [hsk2]
                rcases hprog2 with hlt | heof
                · rw [ih st3 (by omega)]
                · have heof3 : st3.eof = true := hfr.2 heof
                  rw [triangleLoopF_eof st3 heof3 (f1 + 1),
                    triangleLoopF_eof st3 heof3 f1]
            | solid => rfl
            | normal => rfl
            | outer => rfl
            | loop => rfl
            | vertex => rfl
            | endloop => rfl
            | endfacet => rfl
            | endsolid => rfl
            | facetOrEndsolid => rfl

/-- The fuel `parseMain` gives the triangle loop is adequate: any fuel of
at least `totalWords + 2` computes the same result, so the model agrees
with Go's unbounded `TriangleLoop`. -/
theorem triangleLoop_fuel_adequate (st : ScanState) :
    ∀ g : Nat, totalWords st + 2 ≤ g →
      triangleLoopF g st = triangleLoopF (totalWords st + 2) st := by
  intro g
  induction g with
  | zero => exact fun h => absurd h (by omega)
  | succ g ih =>
    intro h
    rcases Nat.lt_or_ge g (totalWords st + 2) with hlt | hge
    · have hg : g + 1 = totalWords st + 2 := by omega
      rw [hg]
    · rw [triangleLoopF_stable g st hge]
      exact ih hge

/-- The failure branch of the triangle loop: when `parseFacet` fails on a
`facet`-headed block, the loop marks `TrianglesSkipped`, does not emit
the triangle, appends the failure's diagnostics, and continues after the
`skipToToken(idFacet|idEndsolid)` synchronization point. -/
theorem triangleLoopF_facet_fail (f : Nat) (st : ScanState)
    (he : st.eof = false) (hf : identMatches Ident.facet st.currentWord = true)
    (hp : (parseFacet st).1 = none) :
    ∃ ts sk stExit tail,
      triangleLoopF f (skipToToken Ident.facetOrEndsolid (parseFacet st).2.1).2 =
        (ts, sk, stExit, tail) ∧
      triangleLoopF (f + 1) st =
        (ts, true, stExit, (parseFacet st).2.2 ++ tail) := by
  rcases hloop : triangleLoopF f
      (skipToToken Ident.facetOrEndsolid (parseFacet st).2.1).2 with
    ⟨ts, sk, stExit, tail⟩
  refine ⟨ts, sk, stExit, tail, rfl, ?_⟩
  have hw : st.currentWord = "facet" := by simpa [identMatches] using hf
  have hend : identMatches Ident.endsolid st.currentWord = false := by
    rw [hw]
    rfl
  rcases hpf : parseFacet st with ⟨o, st2, ds⟩
  have ho : o = none := by
    rw [hpf] at hp
    exact hp
  subst ho
  rw [hpf] at hloop
  dsimp only at hloop
  rcases hskip : skipToToken Ident.facetOrEndsolid st2 with ⟨r, st3⟩
  rw [hskip] at hloop
  dsimp only at hloop
  simp only [triangleLoopF, he, Bool.false_eq_true, if_false, hend, hf, if_true,
    hpf, hskip, hloop, List.nil_append]

/-- `TrianglesSkipped` forces `Parse` to report failure. -/
theorem parse_skipped_false (lines : List String) (sw : Solid)
    (h : (parseMain lines).skipped = true) : (Parse lines sw).success = false := by
  unfold Parse
  simp [h]

/-- C5 (amended): when parsing one triangle fails at any sub-step, the
parser aborts that triangle, records exactly one diagnostic naming the
failing expectation — except that reaching end of stream at a float
literal records none — marks the triangles-skipped flag (so `Parse`
returns failure), hands nothing to the Writer for that block, and
synchronizes forward to the next `facet`/`endsolid` token (or end of
stream). -/
theorem c5_facet_recovery :
    (∀ st : ScanState, (parseFacet st).1 = none →
      FacetFailDiags (parseFacet st).2.1 (parseFacet st).2.2) ∧
    (∀ (f : Nat) (st : ScanState), st.eof = false →
      identMatches Ident.facet st.currentWord = true →
      (parseFacet st).1 = none →
      ∃ ts sk stExit tail,
        triangleLoopF f
            (skipToToken Ident.facetOrEndsolid (parseFacet st).2.1).2 =
          (ts, sk, stExit, tail) ∧
        triangleLoopF (f + 1) st =
          (ts, true, stExit, (parseFacet st).2.2 ++ tail)) ∧
    (∀ st : ScanState,
      ((skipToToken Ident.facetOrEndsolid st).1 = none →
        (skipToToken Ident.facetOrEndsolid st).2.eof = true) ∧
      ((skipToToken Ident.facetOrEndsolid st).1 = some Ident.facet →
        (skipToToken Ident.facetOrEndsolid st).2.currentWord = "facet") ∧
      ((skipToToken Ident.facetOrEndsolid st).1 = some Ident.endsolid →
        (skipToToken Ident.facetOrEndsolid st).2.currentWord = "endsolid")) ∧
    (∀ (lines : List String) (sw : Solid), (parseMain lines).skipped = true →
      (Parse lines sw).success = false) := by
  refine ⟨parseFacet_none_diags, triangleLoopF_facet_fail, fun st => ?_,
    parse_skipped_false⟩
  have hspec := skipToTokenF_spec (totalWords st + 1) Ident.facetOrEndsolid st
    (by omega)
  exact ⟨hspec.1, fun h => hspec.2.2.1 h rfl, fun h => hspec.2.2.2 h rfl⟩

/-- C7: `Parse` returns success exactly when the header was valid, no
triangle was skipped, and the scanner's current token at loop exit is
literally `endsolid`; and when the first two hold but the token is
absent, the final consumption attempt records the `"endsolid" expected`
diagnostic (Go's `&&` short-circuits the attempt otherwise). -/
theorem c7_parse_success (lines : List String) (sw : Solid) :
    ((Parse lines sw).success = true ↔
      ((parseMain lines).headerError = false ∧
        (parseMain lines).skipped = false ∧
        (parseMain lines).state.currentWord = "endsolid")) ∧
    ((parseMain lines).headerError = false → (parseMain lines).skipped = false →
      (parseMain lines).state.currentWord ≠ "endsolid" →
      (Parse lines sw).diags = (parseMain lines).diags ++
        [diag (parseMain lines).state.line "\"endsolid\" expected"]) := by
  constructor
  · cases hh : (parseMain lines).headerError with
    | true =>
      have hfalse : (Parse lines sw).success = false := by
        unfold Parse
        simp [hh]
      rw [hfalse]
      constructor
      · intro hc
        exact Bool.noConfusion hc
      · rintro ⟨h1, -, -⟩
        exact Bool.noConfusion h1
    | false =>
      cases hsk : (parseMain lines).skipped with
      | true =>
        have hfalse : (Parse lines sw).success = false := by
          unfold Parse
          simp [hsk]
        rw [hfalse]
        constructor
        · intro hc
          exact Bool.noConfusion hc
        · rintro ⟨-, h2, -⟩
          exact Bool.noConfusion h2
      | false =>
        have hsucc : (Parse lines sw).success =
            (consumeToken Ident.endsolid (parseMain lines).state).1 := by
          unfold Parse
          simp [hh, hsk]
        rw [hsucc]
        unfold consumeToken
        by_cases hw : identMatches Ident.endsolid
            (parseMain lines).state.currentWord = true
        · rw [if_pos hw]
          have hword : (parseMain lines).state.currentWord = "endsolid" := by
            simpa [identMatches] using hw
          simp [hh, hsk, hword]
        · rw [if_neg hw]
          have hword : (parseMain lines).state.currentWord ≠ "endsolid" := by
            intro hcc
            exact absurd (by simp [identMatches, hcc]) hw
          simp [hh, hsk, hword]
  · intro h1 h2 h3
    have hw : identMatches Ident.endsolid (parseMain lines).state.currentWord =
        false := by
      simp [identMatches, h3]
    unfold Parse
    simp [h1, h2, consumeToken, hw, identText]

set_option maxRecDepth 10000 in
/-- Witness for C7 at the concrete input `solid a` with no `endsolid`:
the final consumption attempt records the diagnostic and `Parse` fails. -/
theorem c7_parse_success_witness :
    (Parse ["solid a"] emptyWriter).success = false ∧
    (Parse ["solid a"] emptyWriter).diags = (parseMain ["solid a"]).diags ++
      [diag (parseMain ["solid a"]).state.line "\"endsolid\" expected"] := by
  constructor
  · have h := (c7_parse_success ["solid a"] emptyWriter).1
    cases hs : (Parse ["solid a"] emptyWriter).success with
    | false => rfl
    | true =>
      have := h.mp hs
      exact absurd this.2.2 (by with_unfolding_all decide)
  · exact (c7_parse_success ["solid a"] emptyWriter).2
      (by with_unfolding_all rfl) (by with_unfolding_all rfl)
      (by with_unfolding_all decide)

set_option maxRecDepth 100000 in
/-- C8: every vertex/normal coordinate literal is accepted exactly when it
parses at reduced 32-bit precision (the value then stored in the
full-precision field), and a `parseFloat64` rejection records the float
diagnostic; in particular the decimal literal `1e39`, within `float64`
range, is beyond the `float32` overflow bound and rejected. -/
theorem c8_parseFloat_reduced_precision :
    (∀ st : ScanState, st.eof = false →
      (parseFloat64 st).1 = goParseFloat32 st.currentWord ∧
      (goParseFloat32 st.currentWord = none →
        (parseFloat64 st).2.2 = [diag st.line "Unable to parse float"]) ∧
      (∀ q, goParseFloat32 st.currentWord = some q →
        (parseFloat64 st).2.2 = [])) ∧
    parseDecimalLit "1e39" = some ((10 : ℚ) ^ 39) ∧
    goParseFloat32 "1e39" = none ∧
    (10 : ℚ) ^ 39 ≤ maxFloat64R ∧
    float32OverflowBound < (10 : ℚ) ^ 39 := by
  refine ⟨?_, ?_, by with_unfolding_all rfl, ?_, ?_⟩
  · intro st he
    refine ⟨?_, ?_, ?_⟩
    · unfold parseFloat64
      rw [if_neg (by simp [he])]
      cases hg : goParseFloat32 st.currentWord with
      | none => rfl
      | some q => rfl
    · intro hg
      unfold parseFloat64
      rw [if_neg (by simp [he]), hg]
    · intro q hg
      unfold parseFloat64
      rw [if_neg (by simp [he]), hg]
  · show parseDecimalLit "1e39" = some ((10 : ℚ) ^ 39)
    with_unfolding_all rfl
  · rw [maxFloat64R]
    norm_num
  · rw [float32OverflowBound]
    norm_num

set_option maxRecDepth 10000 in
/-- Witness for C8: on a scanner state whose word is `1e39`, the parse is
rejected with exactly the float diagnostic. -/
theorem c8_parseFloat_reduced_precision_witness :
    (parseFloat64 c8State).1 = none ∧
    (parseFloat64 c8State).2.2 = [diag 3 "Unable to parse float"] := by
  have h := c8_parseFloat_reduced_precision.1 c8State rfl
  refine ⟨?_, ?_⟩
  · rw [h.1]
    with_unfolding_all rfl
  · exact h.2.1 (by with_unfolding_all rfl)

/-! ### Conforming-input lemmas (C1) -/

/-- A successful `nextWord` moves the cursor one word forward. -/
theorem cursor_nextWord (st : ScanState) (w : String) (ws : List String)
    (h : Cursor st (w :: ws)) : Cursor (nextWord st).2 ws := by
  obtain ⟨he, hw, hs⟩ := h
  cases ws with
  | nil => exact (nextWord_stream_nil st he hs).2
  | cons x r =>
    obtain ⟨-, h1, h2, h3⟩ := nextWord_stream_cons st x r he hs
    exact ⟨h1, h2, h3⟩

/-- Consuming a matching keyword advances the cursor and emits nothing. -/
theorem cursor_consumeToken (i : Ident) (st : ScanState) (w : String)
    (ws : List String) (h : Cursor st (w :: ws))
    (hm : identMatches i w = true) :
    consumeToken i st = (true, (nextWord st).2, []) ∧
      Cursor (nextWord st).2 ws := by
  obtain ⟨he, hw, hs⟩ := h
  refine ⟨?_, cursor_nextWord st w ws ⟨he, hw, hs⟩⟩
  unfold consumeToken
  rw [if_pos (by rw [hw]; exact hm)]

/-- Parsing a well-formed float literal advances the cursor, yields its
value and emits nothing. -/
theorem cursor_parseFloat (st : ScanState) (w : String) (ws : List String)
    (q : ℚ) (h : Cursor st (w :: ws)) (hq : goParseFloat32 w = some q) :
    parseFloat64 st = (some q, (nextWord st).2, []) ∧
      Cursor (nextWord st).2 ws := by
  obtain ⟨he, hw, hs⟩ := h
  refine ⟨?_, cursor_nextWord st w ws ⟨he, hw, hs⟩⟩
  unfold parseFloat64
  rw [if_neg (by simp [he]), hw, hq]

/-- Parsing three well-formed float literals yields the point. -/
theorem cursor_parsePoint (st : ScanState) (a b c : String) (ws : List String)
    (qa qb qc : ℚ) (h : Cursor st (a :: b :: c :: ws))
    (ha : goParseFloat32 a = some qa) (hb : goParseFloat32 b = some qb)
    (hc : goParseFloat32 c = some qc) :
    ∃ st', parsePoint st = (some ⟨qa, qb, qc⟩, st', []) ∧ Cursor st' ws := by
  obtain ⟨h1, hcur1⟩ := cursor_parseFloat st a (b :: c :: ws) qa h ha
  obtain ⟨h2, hcur2⟩ := cursor_parseFloat _ b (c :: ws) qb hcur1 hb
  obtain ⟨h3, hcur3⟩ := cursor_parseFloat _ c ws qc hcur2 hc
  exact ⟨_, by simp [parsePoint, h1, h2, h3], hcur3⟩

/-- Parsing one grammar-correct facet block yields exactly its triangle,
no diagnostics, and the cursor after the block. -/
theorem cursor_parseFacet (st : ScanState) (t : Triangle) (blockWs more : List String)
    (hft : facetToks t blockWs) (h : Cursor st (blockWs ++ more)) :
    ∃ st', parseFacet st = (some t, st', []) ∧ Cursor st' more := by
  obtain ⟨na, nb, nc, a1, a2, a3, b1, b2, b3, c1, c2, c3, hws, hna, hnb, hnc,
    ha1, ha2, ha3, hb1, hb2, hb3, hc1m, hc2m, hc3m⟩ := hft
  subst hws
  simp only [List.cons_append, List.nil_append] at h
  obtain ⟨e1, hcur1⟩ := cursor_consumeToken Ident.facet st _ _ h rfl
  obtain ⟨e2, hcur2⟩ := cursor_consumeToken Ident.normal _ _ _ hcur1 rfl
  obtain ⟨st3, e3, hcur3⟩ := cursor_parsePoint _ na nb nc _ _ _ _ hcur2 hna hnb hnc
  obtain ⟨e4, hcur4⟩ := cursor_consumeToken Ident.outer _ _ _ hcur3 rfl
  obtain ⟨e5, hcur5⟩ := cursor_consumeToken Ident.loop _ _ _ hcur4 rfl
  obtain ⟨e6, hcur6⟩ := cursor_consumeToken Ident.vertex _ _ _ hcur5 rfl
  obtain ⟨st7, e7, hcur7⟩ := cursor_parsePoint _ a1 a2 a3 _ _ _ _ hcur6 ha1 ha2 ha3
  obtain ⟨e8, hcur8⟩ := cursor_consumeToken Ident.vertex _ _ _ hcur7 rfl
  obtain ⟨st9, e9, hcur9⟩ := cursor_parsePoint _ b1 b2 b3 _ _ _ _ hcur8 hb1 hb2 hb3
  obtain ⟨e10, hcur10⟩ := cursor_consumeToken Ident.vertex _ _ _ hcur9 rfl
  obtain ⟨st11, e11, hcur11⟩ :=
    cursor_parsePoint _ c1 c2 c3 _ _ _ _ hcur10 hc1m hc2m hc3m
  obtain ⟨e12, hcur12⟩ := cursor_consumeToken Ident.endloop _ _ _ hcur11 rfl
  obtain ⟨e13, hcur13⟩ := cursor_consumeToken Ident.endfacet _ _ _ hcur12 rfl
  refine ⟨_, ?_, hcur13⟩
  simp [parseFacet, e1, e2, e3, e4, e5, e6, e7, e8, e9, e10, e11, e12, e13]

/-- A grammar-correct facet block spells 21 words. -/
theorem facetStream_length (ts : List Triangle) (ws : List String)
    (h : FacetStream ts ws) : ws.length = 21 * ts.length := by
  induction h with
  | nil => rfl
  | cons hft hrest ih =>
    rename_i t ts' ws' rest'
    obtain ⟨na, nb, nc, a1, a2, a3, b1, b2, b3, c1, c2, c3, hws, -⟩ := hft
    subst hws
    simp only [List.length_append, List.length_cons, ih]
    simp only [List.length_cons, List.length_nil]
    omega

/-- The triangle loop on a conforming stream emits exactly the encoded
triangles, skips none, emits no diagnostics, and exits standing on
`endsolid`. -/
theorem triangleLoop_conforming (ts : List Triangle) (ws : List String)
    (h : FacetStream ts ws) :
    ∀ (f : Nat) (st : ScanState), Cursor st (ws ++ ["endsolid"]) →
      ts.length + 1 ≤ f →
      ∃ st', triangleLoopF f st = (ts, false, st', []) ∧
        Cursor st' ["endsolid"] := by
  induction h with
  | nil =>
    intro f st hcur hf
    obtain ⟨f', rfl⟩ : ∃ f', f = f' + 1 := ⟨f - 1, by omega⟩
    simp only [List.nil_append] at hcur
    obtain ⟨he, hw, hs⟩ := hcur
    refine ⟨st, ?_, ⟨he, hw, hs⟩⟩
    simp only [triangleLoopF, he, Bool.false_eq_true, if_false, hw]
    rw [if_pos (by rfl)]
  | cons hft hrest ih =>
    intro f st hcur hf
    rename_i t ts' ws' rest'
    obtain ⟨f', rfl⟩ : ∃ f', f = f' + 1 := ⟨f - 1, by omega⟩
    rw [List.append_assoc] at hcur
    obtain ⟨st2, hpf, hcur2⟩ := cursor_parseFacet st t ws' _ hft hcur
    obtain ⟨st', hloop, hcur'⟩ := ih f' st2 hcur2 (by
      simp only [List.length_cons] at hf
      omega)
    have hword : st.currentWord = "facet" := by
      obtain ⟨na, nb, nc, a1, a2, a3, b1, b2, b3, c1, c2, c3, hws, -⟩ := hft
      subst hws
      simp only [List.cons_append] at hcur
      exact hcur.2.1
    have he : st.eof = false := by
      obtain ⟨na, nb, nc, a1, a2, a3, b1, b2, b3, c1, c2, c3, hws, -⟩ := hft
      subst hws
      simp only [List.cons_append] at hcur
      exact hcur.1
    refine ⟨st', ?_, hcur'⟩
    have hend : identMatches Ident.endsolid st.currentWord = false := by
      rw [hword]
      rfl
    have hfac : identMatches Ident.facet st.currentWord = true := by
      rw [hword]
      rfl
    simp only [triangleLoopF, he, Bool.false_eq_true, if_false, hend, hfac,
      if_true, hpf, hloop, List.nil_append]

/-- Splitting a header line: the literal `solid` keyword followed by the
words of the name. -/
theorem splitWords_header (name : String) :
    splitWords ("solid " ++ name) = "solid" :: splitWords name := by
  unfold splitWords
  rw [String.data_append]
  show splitWordsAux ('s' :: 'o' :: 'l' :: 'i' :: 'd' :: ' ' :: name.data) [] =
    "solid" :: splitWordsAux name.data []
  simp [splitWordsAux, isSpaceChar]

/-- After `nextLine`, the cursor stands on the words of the unread
lines. -/
theorem cursor_nextLine (st : ScanState) (he : st.eof = false) :
    Cursor (nextLine st).2 ((st.restLines.map splitWords).flatten) := by
  unfold nextLine
  cases hf : findLine st.restLines with
  | mk k r =>
    cases r with
    | none =>
      rw [findLine_eq_none st.restLines (by rw [hf])]
      exact rfl
    | some q =>
      obtain ⟨l, w, ws, rest⟩ := q
      rw [findLine_eq_some st.restLines l w ws rest (by rw [hf])]
      exact ⟨he, rfl, rfl⟩

/-- `AppendTriangle` calls in order extend the triangle list and keep the
other `Solid` fields. -/
theorem foldl_appendTriangle (ts : List Triangle) :
    ∀ sw : Solid,
      (ts.foldl Solid.appendTriangle sw).triangles = sw.triangles ++ ts ∧
      (ts.foldl Solid.appendTriangle sw).name = sw.name ∧
      (ts.foldl Solid.appendTriangle sw).binaryHeader = sw.binaryHeader ∧
      (ts.foldl Solid.appendTriangle sw).isAscii = sw.isAscii := by
  induction ts with
  | nil => intro sw; simp
  | cons t ts ih =>
    intro sw
    obtain ⟨h1, h2, h3, h4⟩ := ih (sw.appendTriangle t)
    refine ⟨?_, h2, h3, h4⟩
    rw [List.foldl_cons, h1]
    simp [Solid.appendTriangle]

/-- C1: on any byte stream conforming to the STL ASCII grammar — a
`solid` header line followed by lines whose words form grammar-correct
facet blocks for the triangles `ts` and a final `endsolid` — `Parse`
succeeds with empty diagnostic text, sets the Writer's name from the
header, and appends exactly `ts` to the Writer in file order. -/
theorem c1_parse_conforming (name : String) (body : List String)
    (ts : List Triangle) (ws : List String) (sw : Solid)
    (hfs : FacetStream ts ws)
    (hbody : (body.map splitWords).flatten = ws ++ ["endsolid"]) :
    (Parse (("solid " ++ name) :: body) sw).success = true ∧
    (Parse (("solid " ++ name) :: body) sw).errorText = "" ∧
    (Parse (("solid " ++ name) :: body) sw).diags = [] ∧
    (Parse (("solid " ++ name) :: body) sw).writer.name =
      extractASCIIString name ∧
    (Parse (("solid " ++ name) :: body) sw).writer.triangles =
      sw.triangles ++ ts := by
  have hsw := splitWords_header name
  have hinit : initParser (("solid " ++ name) :: body) =
      { line := 1, currentWord := "solid", currentLine := "solid " ++ name,
        restWords := splitWords name, restLines := body, eof := false } := by
    unfold initParser nextLine
    simp [findLine, hsw]
  have hdrop : (⟨("solid " ++ name).data.drop 6⟩ : String) = name := by
    rw [String.data_append]
    show (⟨(("solid ").data ++ name.data).drop ("solid ").data.length⟩ : String) =
      name
    rw [List.drop_left]
  have hheader : parseASCIIHeaderLine (initParser (("solid " ++ name) :: body)) =
      (true, some (extractASCIIString name),
        (nextLine (initParser (("solid " ++ name) :: body))).2, []) := by
    unfold parseASCIIHeaderLine
    rw [hinit]
    rw [if_neg (by simp)]
    rw [if_pos ?hpre]
    case hpre =>
      show strStartsWith ("solid " ++ name) "solid " = true
      unfold strStartsWith
      rw [String.data_append, List.isPrefixOf_iff_prefix]
      exact List.prefix_append _ _
    rw [show ("solid " ++ name).data.drop 6 = name.data by
      rw [String.data_append]
      show (("solid ").data ++ name.data).drop ("solid ").data.length = name.data
      rw [List.drop_left]]
  have hcur1 : Cursor (nextLine (initParser (("solid " ++ name) :: body))).2
      (ws ++ ["endsolid"]) := by
    have hc := cursor_nextLine (initParser (("solid " ++ name) :: body))
      (by rw [hinit])
    rw [show (initParser (("solid " ++ name) :: body)).restLines = body by
      rw [hinit]] at hc
    rwa [hbody] at hc
  have hlen : ts.length + 1 ≤
      totalWords (nextLine (initParser (("solid " ++ name) :: body))).2 + 2 := by
    have hws21 := facetStream_length ts ws hfs
    cases hwse : ws ++ ["endsolid"] with
    | nil => exact absurd hwse (by simp)
    | cons w rest =>
      rw [hwse] at hcur1
      obtain ⟨-, -, hs⟩ := hcur1
      have : totalWords (nextLine (initParser (("solid " ++ name) :: body))).2 =
          rest.length := by
        unfold totalWords
        rw [hs]
      have hlens : ws.length + 1 = rest.length + 1 := by
        have := congrArg List.length hwse
        simpa using this
      omega
  obtain ⟨stExit, hloop, hcurExit⟩ := triangleLoop_conforming ts ws hfs
    (totalWords (nextLine (initParser (("solid " ++ name) :: body))).2 + 2)
    (nextLine (initParser (("solid " ++ name) :: body))).2 hcur1 hlen
  have hmain : parseMain (("solid " ++ name) :: body) =
      { headerError := false, skipped := false,
        nameSet := some (extractASCIIString name), emitted := ts,
        state := stExit, diags := [] } := by
    unfold parseMain
    rw [if_neg (by rw [hinit]; simp)]
    rw [hheader]
    dsimp only
    rw [hloop]
    rfl
  obtain ⟨heE, hwE, hsE⟩ := hcurExit
  have hconsume : consumeToken Ident.endsolid stExit =
      (true, (nextWord stExit).2, []) := by
    unfold consumeToken
    rw [if_pos (by rw [hwE]; rfl)]
  obtain ⟨hft, hfn, -, -⟩ :=
    foldl_appendTriangle ts (sw.setName (extractASCIIString name))
  simp only [Solid.setName] at hft hfn
  refine ⟨?_, ?_, ?_, ?_, ?_⟩ <;>
    · unfold Parse
      rw [hmain]
      dsimp only
      try rw [hconsume]
      simp [hft, hfn, Solid.setName, String.join]

set_option maxRecDepth 100000 in
/-- Witness for C1: the conforming one-triangle file `solid x` /
`c1Body` parses successfully, with empty error text, the name `x`, and
exactly its triangle appended. -/
theorem c1_parse_conforming_witness :
    (Parse (("solid " ++ "x") :: c1Body) emptyWriter).success = true ∧
    (Parse (("solid " ++ "x") :: c1Body) emptyWriter).errorText = "" ∧
    (Parse (("solid " ++ "x") :: c1Body) emptyWriter).diags = [] ∧
    (Parse (("solid " ++ "x") :: c1Body) emptyWriter).writer.name =
      extractASCIIString "x" ∧
    (Parse (("solid " ++ "x") :: c1Body) emptyWriter).writer.triangles =
      emptyWriter.triangles ++ [c1Tri] := by
  have hft : facetToks c1Tri c1Block :=
    ⟨"0", "0", "1", "0", "0", "0", "1", "0", "0", "0", "1", "0", by rfl,
     by with_unfolding_all rfl, by with_unfolding_all rfl,
     by with_unfolding_all rfl, by with_unfolding_all rfl,
     by with_unfolding_all rfl, by with_unfolding_all rfl,
     by with_unfolding_all rfl, by with_unfolding_all rfl,
     by with_unfolding_all rfl, by with_unfolding_all rfl,
     by with_unfolding_all rfl, by with_unfolding_all rfl⟩
  have hfs : FacetStream [c1Tri] (c1Block ++ []) :=
    FacetStream.cons hft FacetStream.nil
  exact c1_parse_conforming "x" c1Body [c1Tri] (c1Block ++ []) emptyWriter hfs
    (by with_unfolding_all rfl)

/-- `nextLine` ignores the current word, line and remaining words of the
line: its result depends only on the line counter, the `eof` flag and the
unread lines. -/
theorem nextLine_congr (a b : ScanState) (h1 : a.line = b.line)
    (h2 : a.eof = b.eof) (h3 : a.restLines = b.restLines) :
    (nextLine a).2 = (nextLine b).2 := by
  obtain ⟨al, acw, acl, arw, arl, ae⟩ := a
  obtain ⟨bl, bcw, bcl, brw, brl, be⟩ := b
  dsimp only at h1 h2 h3
  subst h1
  subst h2
  subst h3
  unfold nextLine
  cases hf : findLine arl with
  | mk k r =>
    cases r with
    | none => rfl
    | some q =>
      obtain ⟨l, w, ws, rest⟩ := q
      rfl

set_option maxRecDepth 10000 in
/-- Counterexample to C6 as stated: the input whose first line is blank
and whose second line is `solid a` is non-empty and its first line does
not start with `"solid "`, yet `Parse` succeeds with no diagnostics —
the scanner skips word-less lines before the header check, so the claim
as stated (header diagnostic, success=false) fails. -/
theorem c6_counterexample :
    (Parse ["", "solid a", "endsolid"] emptyWriter).success = true ∧
    (Parse ["", "solid a", "endsolid"] emptyWriter).diags = [] ∧
    strStartsWith "" "solid " = false ∧
    (["", "solid a", "endsolid"] : List String) ≠ [] := by
  refine ⟨by with_unfolding_all rfl, by with_unfolding_all rfl, by rfl, by simp⟩

/-- C6 (amended): when the first *word-bearing* line of the input does
not start with `"solid "`, `Parse` fails, the header-error flag is set,
the diagnostics begin with the single header diagnostic and continue
with exactly the diagnostics of the same input under a well-formed
header (`solid x`) — the triangle loop runs identically in both cases
(no short-circuit), emitting the same triangles from the same scanner
states. -/
theorem c6_header_error (hdr : String) (body : List String) (sw : Solid)
    (hwords : splitWords hdr ≠ []) (hp : strStartsWith hdr "solid " = false) :
    (Parse (hdr :: body) sw).success = false ∧
    (parseMain (hdr :: body)).headerError = true ∧
    (parseMain ("solid x" :: body)).headerError = false ∧
    (parseMain (hdr :: body)).diags =
      diag 1 "ASCII header must start with \"solid \"" ::
        (parseMain ("solid x" :: body)).diags ∧
    (parseMain (hdr :: body)).emitted = (parseMain ("solid x" :: body)).emitted ∧
    (parseMain (hdr :: body)).skipped = (parseMain ("solid x" :: body)).skipped ∧
    (parseMain (hdr :: body)).state = (parseMain ("solid x" :: body)).state := by
  cases hsw : splitWords hdr with
  | nil => exact absurd hsw hwords
  | cons w0 ws0 =>
  have hinitb : initParser (hdr :: body) =
      { line := 1, currentWord := w0, currentLine := hdr, restWords := ws0,
        restLines := body, eof := false } := by
    unfold initParser nextLine
    simp [findLine, hsw]
  have hinitg : initParser ("solid x" :: body) =
      { line := 1, currentWord := "solid", currentLine := "solid x",
        restWords := ["x"], restLines := body, eof := false } := by
    unfold initParser nextLine
    have : splitWords "solid x" = ["solid", "x"] := by rfl
    simp [findLine, this]
  have hnext : (nextLine (initParser ("solid x" :: body))).2 =
      (nextLine (initParser (hdr :: body))).2 := by
    apply nextLine_congr
    · rw [hinitb, hinitg]
    · rw [hinitb, hinitg]
    · rw [hinitb, hinitg]
  have hhb : parseASCIIHeaderLine (initParser (hdr :: body)) =
      (false, none, (nextLine (initParser (hdr :: body))).2,
        [diag 1 "ASCII header must start with \"solid \""]) := by
    unfold parseASCIIHeaderLine
    rw [hinitb]
    rw [if_neg (by simp), if_neg (by simp [hp])]
  have hhg : parseASCIIHeaderLine (initParser ("solid x" :: body)) =
      (true, some "x", (nextLine (initParser ("solid x" :: body))).2, []) := by
    unfold parseASCIIHeaderLine
    rw [hinitg]
    rw [if_neg (by simp), if_pos (by rfl)]
    rfl
  rcases hloop : triangleLoopF
      (totalWords (nextLine (initParser (hdr :: body))).2 + 2)
      (nextLine (initParser (hdr :: body))).2 with ⟨ts, sk, st2, lds⟩
  have hbm : parseMain (hdr :: body) =
      { headerError := true, skipped := sk, nameSet := none, emitted := ts,
        state := st2,
        diags := [diag 1 "ASCII header must start with \"solid \""] ++ lds } := by
    unfold parseMain
    rw [if_neg (by rw [hinitb]; simp)]
    rw [hhb]
    dsimp only
    rw [hloop]
    rfl
  have hgm : parseMain ("solid x" :: body) =
      { headerError := false, skipped := sk, nameSet := some "x", emitted := ts,
        state := st2, diags := [] ++ lds } := by
    unfold parseMain
    rw [if_neg (by rw [hinitg]; simp)]
    rw [hhg]
    dsimp only
    rw [hnext, hloop]
    rfl
  refine ⟨?_, by rw [hbm], by rw [hgm], by rw [hbm, hgm]; simp,
    by rw [hbm, hgm], by rw [hbm, hgm], by rw [hbm, hgm]⟩
  unfold Parse
  rw [hbm]
  simp

set_option maxRecDepth 10000 in
/-- Witness for C6 (amended) at the concrete input `bogus header` /
`garbage` / `endsolid`: one header diagnostic followed by the loop's own
diagnostic, and failure — triangle-level errors are still reported after
the header error. -/
theorem c6_header_error_witness :
    (Parse ["bogus header", "garbage", "endsolid"] emptyWriter).success =
      false ∧
    (parseMain ["bogus header", "garbage", "endsolid"]).diags =
      diag 1 "ASCII header must start with \"solid \"" ::
        (parseMain ["solid x", "garbage", "endsolid"]).diags ∧
    (parseMain ["solid x", "garbage", "endsolid"]).diags =
      [diag 2 "\"facet\" or \"endsolid\" expected"] := by
  have h := c6_header_error "bogus header" ["garbage", "endsolid"] emptyWriter
    (by with_unfolding_all decide) (by rfl)
  exact ⟨h.1, h.2.2.2.1, by with_unfolding_all rfl⟩

set_option maxRecDepth 10000 in
/-- Counterexample to C5 as stated: the input `solid a` / `facet normal 1`
ends mid-float; the triangle is skipped (`success=false`, skip mark set,
nothing emitted) but the parser records **no** diagnostic at all, while
the claim demands one diagnostic naming the failing expectation. -/
theorem c5_counterexample :
    (Parse ["solid a", "facet normal 1"] emptyWriter).success = false ∧
    (Parse ["solid a", "facet normal 1"] emptyWriter).trianglesSkipped = true ∧
    (Parse ["solid a", "facet normal 1"] emptyWriter).diags = [] ∧
    (Parse ["solid a", "facet normal 1"] emptyWriter).errorText =
      "Triangles had to be skipped.\n" ∧
    (Parse ["solid a", "facet normal 1"] emptyWriter).writer.triangles = [] := by
  refine ⟨?_, ?_, ?_, ?_, ?_⟩ <;> with_unfolding_all rfl

set_option maxRecDepth 10000 in
/-- Witness for C5 (amended) at a concrete failing state: a facet block
whose third word is an unparsable float records exactly the one float
diagnostic. -/
theorem c5_facet_recovery_witness :
    (parseFacet c5FailState).1 = none ∧
    FacetFailDiags (parseFacet c5FailState).2.1 (parseFacet c5FailState).2.2 :=
  ⟨by with_unfolding_all rfl,
   c5_facet_recovery.1 c5FailState (by with_unfolding_all rfl)⟩
